import Mathlib

/-!
Verification of the schema-driven validation engine of a headless CMS.

The development shallowly embeds the validation module of the repository
(functions `validateFieldType`, `validateData`, `validateUUID`,
`validateContentDataForType`) together with the JavaScript runtime
facilities those functions use:

* JS values are modeled by the inductive type `JSValue`; JS numbers are
  modeled as integers because the validators only inspect `typeof` of
  numbers and pass them through unchanged.
* JS objects (`Record<string, unknown>`) are modeled as association lists
  with the JS member semantics: `getProp` (absent keys read as
  `undefined`), `setProp` (assignment keeps the position of an existing
  key and appends a fresh key).
* JS strings are modeled as Lean strings; `jsLength` counts UTF-16 code
  units as the JS `length` getter does.
* `new Date(string)` is modeled by `jsDateParse`, implementing the
  ECMA-262 Date Time String Format (the only format the standard
  requires): `YYYY[-MM[-DD]][THH:mm[:ss[.sss]][Z|+HH:mm|-HH:mm]]` with
  expanded years `+YYYYYY`/`-YYYYYY`, `-000000` rejected, date-only and
  offset-free forms read as UTC (the model fixes the host time zone to
  UTC), day values computed by extrapolation exactly as ECMA `MakeDay`
  does, and the final time value clipped to `±8640000000000000` ms as
  ECMA `TimeClip` does (out of range gives `NaN`, modeled as `none`).
  Implementation-defined fallback date formats are not modeled.
* `Date.prototype.toISOString` is modeled by `toISOString`; the civil
  calendar conversion `civilYear`/`civilMonth`/`civilDay` implements
  ECMA `YearFromTime`/`MonthFromTime`/`DateFromTime` by euclidean
  splits of the day number (era of 146097 days, century, year, month);
  the proof `days_civil_roundtrip` shows it is inverse to the standard
  Gregorian day-number function `daysFromCivil` that models `MakeDay`.
* `new Date(dateObject)` copies the internal time value of the argument;
  every reachable JS Date holds a clipped-or-NaN time value, which the
  model reflects by passing the copied value through `clipTime`.
* The data-URL regular expression of the media check,
  `^data:(.+);base64,(.*)$`, is modeled by `jsDataUrlPayload` with the
  backtracking-greedy semantics of JS regexes: the first capture takes
  the longest possible run of non-line-terminator characters such that
  the rest of the pattern still matches; `.` does not match the four JS
  line terminators.

Validation errors are modeled structurally: each constructor of `VError`
stands for exactly one `throw new ValidationError(...)` site of the
module, carrying the data interpolated into that message.
-/

/-! ## Definitions: calendar, ISO date strings, JS values, and the validation module -/

/-- 400-year era of a day number shifted to the era base 0000-03-01. -/
def eraOfZ (z : Int) : Int := (z + 719468) / 146097

/-- Day within the 400-year era, in `[0, 146096]`. -/
def doeOfZ (z : Int) : Int := (z + 719468) % 146097

/-- Century within the era, in `[0, 3]`. -/
def centuryOfDoe (doe : Int) : Int := (4 * doe + 3) / 146097

/-- Day within the century, in `[0, 36524]`. -/
def docOfDoe (doe : Int) : Int := ((4 * doe + 3) % 146097) / 4

/-- Year within the century, in `[0, 99]`. -/
def zzOfDoc (doc : Int) : Int := (4 * doc + 3) / 1461

/-- Day within the March-based year, in `[0, 365]`. -/
def doyOfDoc (doc : Int) : Int := ((4 * doc + 3) % 1461) / 4

/-- March-based month index, in `[0, 11]` (0 = March). -/
def mpOfDoy (doy : Int) : Int := (5 * doy + 2) / 153

/-- Day of month, in `[1, 31]`. -/
def domOfDoy (doy : Int) : Int := doy - (153 * mpOfDoy doy + 2) / 5 + 1

/-- Calendar month, in `[1, 12]`. -/
def monthOfDoy (doy : Int) : Int :=
  if mpOfDoy doy < 10 then mpOfDoy doy + 3 else mpOfDoy doy - 9

/-- Calendar month of the day number `z` (days since 1970-01-01). -/
def civilMonth (z : Int) : Int := monthOfDoy (doyOfDoc (docOfDoe (doeOfZ z)))

/-- Day of month of the day number `z`. -/
def civilDay (z : Int) : Int := domOfDoy (doyOfDoc (docOfDoe (doeOfZ z)))

/-- Calendar year of the day number `z`. -/
def civilYear (z : Int) : Int :=
  let yoe := 100 * centuryOfDoe (doeOfZ z) + zzOfDoc (docOfDoe (doeOfZ z))
  let y := yoe + 400 * eraOfZ z
  if civilMonth z ≤ 2 then y + 1 else y

/-- Day number of a Gregorian date (model of ECMA `MakeDay`; day values
beyond the month length extrapolate, as `MakeDay` does). -/
def daysFromCivil (y0 m d : Int) : Int :=
  let y := if m ≤ 2 then y0 - 1 else y0
  let era := y / 400
  let yoe := y - 400 * era
  let doy := (153 * (if 2 < m then m - 3 else m + 9) + 2) / 5 + d - 1
  let doe := 365 * yoe + yoe / 4 - yoe / 100 + doy
  146097 * era + doe - 719468

/-- Decimal rendering of `n` with exactly `k` digits (leading zeros). -/
def padList : Nat → Nat → List Char
  | 0, _ => []
  | k + 1, n => Nat.digitChar (n / 10 ^ k) :: padList k (n % 10 ^ k)

/-- Model of `Date.prototype.toISOString`: years 0 to 9999 print as four
digits, other years print as a sign followed by six digits. -/
def toISOString (t : Int) : String :=
  let days := t / 86400000
  let msod := (t % 86400000).toNat
  let y := civilYear days
  let yearPart : List Char :=
    if 0 ≤ y ∧ y ≤ 9999 then padList 4 y.toNat
    else if y < 0 then '-' :: padList 6 (-y).toNat
    else '+' :: padList 6 y.toNat
  String.mk (yearPart ++ '-' :: padList 2 (civilMonth days).toNat
    ++ '-' :: padList 2 (civilDay days).toNat
    ++ 'T' :: padList 2 (msod / 3600000) ++ ':' :: padList 2 (msod / 60000 % 60)
    ++ ':' :: padList 2 (msod / 1000 % 60) ++ '.' :: padList 3 (msod % 1000) ++ ['Z'])

/-- Value of a decimal digit character. -/
def digitVal (c : Char) : Option Nat :=
  if '0' ≤ c ∧ c ≤ '9' then some (c.toNat - 48) else none

/-- Read exactly `k` decimal digits into an accumulator. -/
def parseDigits : Nat → Nat → List Char → Option (Nat × List Char)
  | 0, acc, l => some (acc, l)
  | _ + 1, _, [] => none
  | k + 1, acc, c :: rest =>
    match digitVal c with
    | some v => parseDigits k (10 * acc + v) rest
    | none => none

/-- Consume one expected character. -/
def afterChar (c : Char) (l : List Char) : Option (List Char) :=
  match l with
  | [] => none
  | x :: rest => if x = c then some rest else none

/-- ECMA `TimeClip` bound: 8.64e15 milliseconds. -/
def msLimit : Int := 8640000000000000

/-- Combine parsed components into a clipped time value (model of
`MakeDay`/`MakeTime`/`MakeDate`/`TimeClip`). -/
def mkTime (y : Int) (m d hh mi ss ms : Nat) (off : Int) : Option Int :=
  let t := daysFromCivil y m d * 86400000 + (hh : Int) * 3600000 + (mi : Int) * 60000
    + (ss : Int) * 1000 + (ms : Int) - off * 60000
  if -msLimit ≤ t ∧ t ≤ msLimit then some t else none

/-- Time-zone offset in minutes: empty (host zone, fixed to UTC), `Z`,
or a signed `HH:mm`. -/
def parseOffset : List Char → Option Int
  | [] => some 0
  | c :: rest =>
    if c = 'Z' then (if rest = [] then some 0 else none)
    else if c = '+' ∨ c = '-' then
      match parseDigits 2 0 rest with
      | some (oh, r2) =>
        match afterChar ':' r2 with
        | some r3 =>
          match parseDigits 2 0 r3 with
          | some (om, r4) =>
            if r4 = [] ∧ oh ≤ 23 ∧ om ≤ 59 then
              some (if c = '-' then -((oh : Int) * 60 + om) else (oh : Int) * 60 + om)
            else none
          | none => none
        | none => none
      | none => none
    else none

/-- Optional fractional part `.sss` (exactly three digits per the format). -/
def parseFrac : List Char → Option (Nat × List Char)
  | [] => some (0, [])
  | c :: rest =>
    if c = '.' then
      match parseDigits 3 0 rest with
      | some (ms, r2) => some (ms, r2)
      | none => none
    else some (0, c :: rest)

/-- Optional seconds-and-fraction part `:ss[.sss]`. -/
def parseSecFrac : List Char → Option (Nat × Nat × List Char)
  | [] => some (0, 0, [])
  | c :: rest =>
    if c = ':' then
      match parseDigits 2 0 rest with
      | some (ss, r2) =>
        if ss ≤ 59 then
          match parseFrac r2 with
          | some (ms, r3) => some (ss, ms, r3)
          | none => none
        else none
      | none => none
    else some (0, 0, c :: rest)

/-- Time part after the `T`: `HH:mm[:ss[.sss]]` plus offset; hour 24 only
as `24:00:00.000`. -/
def parseTimeTail (y : Int) (m d : Nat) (l : List Char) : Option Int :=
  match parseDigits 2 0 l with
  | some (hh, r1) =>
    match afterChar ':' r1 with
    | some r2 =>
      match parseDigits 2 0 r2 with
      | some (mi, r3) =>
        if hh ≤ 24 ∧ mi ≤ 59 then
          match parseSecFrac r3 with
          | some (ss, ms, r4) =>
            match parseOffset r4 with
            | some off =>
              if hh = 24 ∧ ¬(mi = 0 ∧ ss = 0 ∧ ms = 0) then none
              else mkTime y m d hh mi ss ms off
            | none => none
          | none => none
        else none
      | none => none
    | none => none
  | none => none

/-- After `YYYY-MM-DD`: end of input or a time part. -/
def parseDayTail (y : Int) (m d : Nat) : List Char → Option Int
  | [] => mkTime y m d 0 0 0 0 0
  | c :: rest => if c = 'T' then parseTimeTail y m d rest else none

/-- After `YYYY-MM`: end of input, `-DD`, or a time part. -/
def parseMonthTail (y : Int) (m : Nat) : List Char → Option Int
  | [] => mkTime y m 1 0 0 0 0 0
  | c :: rest =>
    if c = '-' then
      match parseDigits 2 0 rest with
      | some (d, r2) => if 1 ≤ d ∧ d ≤ 31 then parseDayTail y m d r2 else none
      | none => none
    else if c = 'T' then parseTimeTail y m 1 rest
    else none

/-- After the year: end of input, `-MM`, or a time part. -/
def parseYearTail (y : Int) : List Char → Option Int
  | [] => mkTime y 1 1 0 0 0 0 0
  | c :: rest =>
    if c = '-' then
      match parseDigits 2 0 rest with
      | some (m, r2) => if 1 ≤ m ∧ m ≤ 12 then parseMonthTail y m r2 else none
      | none => none
    else if c = 'T' then parseTimeTail y 1 1 rest
    else none

/-- Model of `new Date(string)` restricted to the ECMA-262 Date Time
String Format; `-000000` is rejected as the format requires. -/
def jsDateParse (s : String) : Option Int :=
  match s.data with
  | [] => none
  | c :: rest =>
    if c = '+' then
      match parseDigits 6 0 rest with
      | some (y, r2) => parseYearTail (y : Int) r2
      | none => none
    else if c = '-' then
      match parseDigits 6 0 rest with
      | some (y, r2) => if y = 0 then none else parseYearTail (-(y : Int)) r2
      | none => none
    else
      match parseDigits 4 0 (c :: rest) with
      | some (y, r2) => parseYearTail (y : Int) r2
      | none => none

/-- Time value copied out of an existing JS `Date` object; reachable JS
Dates only hold `NaN` or a value already clipped to `±8.64e15` ms, which
the model enforces at the copy. -/
def clipTime : Option Int → Option Int
  | none => none
  | some t => if -msLimit ≤ t ∧ t ≤ msLimit then some t else none

deriving instance DecidableEq for Except

/-- Model of the JS values the validators distinguish. Numbers carry an
integer because the validators only test `typeof` on them. `jsdate`
carries the internal time value of a `Date` object (`none` for an
invalid date). `obj` stands for any other object. -/
inductive JSValue where
  | num (n : Int)
  | str (s : String)
  | bool (b : Bool)
  | jsdate (t : Option Int)
  | nullV
  | undef
  | obj
deriving DecidableEq

/-- A JS plain object, as an association list in insertion order with
distinct keys. -/
abbrev JSRecord := List (String × JSValue)

/-- Member read `r[k]`: absent keys read as `undefined`. -/
def getProp (r : JSRecord) (k : String) : JSValue :=
  match r with
  | [] => .undef
  | (k2, v) :: rest => if k2 = k then v else getProp rest k

/-- Key presence. -/
def hasKey (r : JSRecord) (k : String) : Bool :=
  match r with
  | [] => false
  | (k2, _) :: rest => k2 = k || hasKey rest k

/-- Member assignment `r[k] = v`: an existing key keeps its position, a
fresh key is appended. -/
def setProp (r : JSRecord) (k : String) (v : JSValue) : JSRecord :=
  match r with
  | [] => [(k, v)]
  | (k2, w) :: rest => if k2 = k then (k2, v) :: rest else (k2, w) :: setProp rest k v

/-- `value === null || value === undefined`. -/
def isNullish : JSValue → Bool
  | .nullV => true
  | .undef => true
  | _ => false

/-- JS string `length` (UTF-16 code units: supplementary-plane code
points count twice). -/
def jsLength (l : List Char) : Nat :=
  (l.map fun c => if c.toNat < 65536 then 1 else 2).sum

/-- JS regex `.` without the `s` flag: everything but the four line
terminators. -/
def isDotChar (c : Char) : Bool :=
  !(c = '\n' || c = '\r' || c = '\u2028' || c = '\u2029')

/-- Try to read the literal `;base64,` here, with the trailing capture
`(.*)$` constraint (no line terminators to the end). -/
def sepHere (l : List Char) : Option (List Char) :=
  ((((((((afterChar ';' l).bind (afterChar 'b')).bind (afterChar 'a')).bind
    (afterChar 's')).bind (afterChar 'e')).bind (afterChar '6')).bind
    (afterChar '4')).bind (afterChar ',')).bind
    (fun b => if b.all isDotChar then some b else none)

/-- Greedy search for the split of `(.+);base64,(.*)$`: prefer the
rightmost occurrence of `;base64,` whose tail matches, walking only
through non-line-terminator characters. Returns the second capture. -/
def sepSplit : List Char → Option (List Char)
  | [] => none
  | c :: rest =>
    match (if isDotChar c then sepSplit rest else none) with
    | some b => some b
    | none => sepHere (c :: rest)

/-- Model of `value.match(/^data:(.+);base64,(.*)$/)`, returning the
second capture when the regex matches. The first capture `(.+)` must
cover at least one character after `data:`. -/
def jsDataUrlPayload (s : String) : Option (List Char) :=
  (((((((afterChar 'd' s.data).bind (afterChar 'a')).bind (afterChar 't')).bind
    (afterChar 'a')).bind (afterChar ':')).bind
    (fun l => match l with
      | [] => none
      | c :: rest => if isDotChar c then some (c :: rest) else none)).bind
    (fun l => match l with
      | c :: rest => (if isDotChar c then some () else none).bind (fun _ => sepSplit rest)
      | [] => none))

/-- The base64 text whose size the media check measures: the second
capture when the data-URL regex matches, the whole string otherwise. -/
def mediaBase64Data (s : String) : List Char :=
  match jsDataUrlPayload s with
  | some b => b
  | none => s.data

/-- `Math.ceil(base64Data.length * 3 / 4)`. -/
def mediaSizeInBytes (s : String) : Nat :=
  (3 * jsLength (mediaBase64Data s) + 3) / 4

/-- The declared field kinds (`FieldType` union of the types module):
`number | text | date | boolean | relation | media | enum | price`. -/
inductive FieldType where
  | number
  | text
  | date
  | boolean
  | relation
  | media
  | enum
  | price
deriving DecidableEq

/-- The `Field` interface of the types module: `name`, `type`, optional
`optional`, `relation` and `options`. -/
structure FieldDef where
  name : String
  type : FieldType
  optional : Bool := false
  relation : Option String := none
  options : Option (List String) := none
deriving DecidableEq

/-- One constructor per `throw new ValidationError(...)` site of the
validation module, carrying the data interpolated into the message. -/
inductive VError where
  | requiredNull (name : String)
  | nullData (key : String)
  | notNumber (name : String)
  | notString (name : String)
  | invalidDate (name : String)
  | notDateValue (name : String)
  | notBoolean (name : String)
  | notRelation (name : String)
  | notMediaString (name : String)
  | mediaTooLarge (name : String)
  | invalidFieldType (t : String)
  | invalidUUID (id : String)
deriving DecidableEq

/-- The field name interpolated into the error message. -/
def VError.fieldName : VError → String
  | .requiredNull n => n
  | .nullData n => n
  | .notNumber n => n
  | .notString n => n
  | .invalidDate n => n
  | .notDateValue n => n
  | .notBoolean n => n
  | .notRelation n => n
  | .notMediaString n => n
  | .mediaTooLarge n => n
  | .invalidFieldType t => t
  | .invalidUUID i => i

/-- The string literals of the `validTypes` array in `validateFieldType`. -/
def validFieldTypeNames : List String :=
  ["number", "text", "date", "boolean", "relation", "media"]

/-- Embedding of `validateFieldType` (validation module, lines 10 to 16):
membership of the candidate string in the six-element `validTypes` array,
otherwise a thrown `ValidationError`. -/
def validateFieldType (t : String) : Except VError String :=
  if validFieldTypeNames.contains t then .ok t else .error (.invalidFieldType t)

/-- Embedding of `validateUUID`, as the regex
`^[0-9a-f]{8}-[0-9a-f]{4}-[0-9a-f]{4}-[0-9a-f]{4}-[0-9a-f]{12}$` with the
`i` flag: hex digits of either case. -/
def isHexDigitCI (c : Char) : Bool :=
  ('0' ≤ c && c ≤ '9') || ('a' ≤ c && c ≤ 'f') || ('A' ≤ c && c ≤ 'F')

/-- Consume exactly `n` case-insensitive hex digits. -/
def hexRun : Nat → List Char → Option (List Char)
  | 0, l => some l
  | _ + 1, [] => none
  | n + 1, c :: rest => if isHexDigitCI c then hexRun n rest else none

/-- The `8-4-4-4-12` grouped hex shape of the UUID regex. -/
def uuidShape (l : List Char) : Bool :=
  ((((((((hexRun 8 l).bind (afterChar '-')).bind (hexRun 4)).bind
    (afterChar '-')).bind (hexRun 4)).bind (afterChar '-')).bind
    (hexRun 4)).bind (afterChar '-')).bind (hexRun 12) == some []

/-- Embedding of `validateUUID` (validation module, lines 77 to 82). -/
def validateUUID (id : String) : Except VError Unit :=
  if uuidShape id.data then .ok () else .error (.invalidUUID id)

/-- Result of checking one field or entry: a thrown error, fall-through
with no assignment, or assignment of a normalized value. -/
inductive Outcome where
  | err (e : VError)
  | skip
  | store (v : JSValue)
deriving DecidableEq

/-- Per-field check of `validateContentDataForType` (lines 87 to 148):
the null/undefined test against `field.optional`, then the `switch` on
`field.type`. The `enum` and `price` members of `FieldType` have no
`case` in the `switch`, so such fields fall through with no check and no
assignment. -/
def valueOutcome (f : FieldDef) (value : JSValue) : Outcome :=
  if isNullish value && !f.optional then .err (.requiredNull f.name)
  else if isNullish value then .skip
  else match f.type with
    | .number =>
      match value with
      | .num n => .store (.num n)
      | _ => .err (.notNumber f.name)
    | .text =>
      match value with
      | .str s => .store (.str s)
      | _ => .err (.notString f.name)
    | .date =>
      match value with
      | .str s =>
        match jsDateParse s with
        | some t => .store (.str (toISOString t))
        | none => .err (.invalidDate f.name)
      | .jsdate ot =>
        match clipTime ot with
        | some t => .store (.str (toISOString t))
        | none => .err (.invalidDate f.name)
      | _ => .err (.notDateValue f.name)
    | .boolean =>
      match value with
      | .bool b => .store (.bool b)
      | _ => .err (.notBoolean f.name)
    | .relation =>
      match value with
      | .str s => .store (.str s)
      | _ => .err (.notRelation f.name)
    | .media =>
      match value with
      | .str s =>
        if mediaSizeInBytes s > 2 * 1024 * 1024 then .err (.mediaTooLarge f.name)
        else .store (.str s)
      | _ => .err (.notMediaString f.name)
    | .enum => .skip
    | .price => .skip

/-- The `for (const field of fields)` loop of `validateContentDataForType`
with its `validated` accumulator. -/
def validateFields (data : JSRecord) : List FieldDef → JSRecord → Except VError JSRecord
  | [], validated => .ok validated
  | f :: rest, validated =>
    match valueOutcome f (getProp data f.name) with
    | .err e => .error e
    | .skip => validateFields data rest validated
    | .store v => validateFields data rest (setProp validated f.name v)

/-- Embedding of `validateContentDataForType` (validation module, lines
85 to 151). -/
def validateContentDataForType (data : JSRecord) (fields : List FieldDef) :
    Except VError JSRecord :=
  validateFields data fields []

/-- Per-entry check of `validateData` (lines 21 to 72): the null test,
then the `switch` on the fixed `type`. Only `number`, `text`, `date` and
`media` have a `case`; every other kind falls through with no check and
no assignment. -/
def dataEntryCheck (t : FieldType) (key : String) (value : JSValue) : Outcome :=
  if isNullish value then .err (.nullData key)
  else match t with
    | .number =>
      match value with
      | .num n => .store (.num n)
      | _ => .err (.notNumber key)
    | .text =>
      match value with
      | .str s => .store (.str s)
      | _ => .err (.notString key)
    | .date =>
      match value with
      | .str s =>
        match jsDateParse s with
        | some u => .store (.str (toISOString u))
        | none => .err (.invalidDate key)
      | .jsdate ot =>
        match clipTime ot with
        | some u => .store (.str (toISOString u))
        | none => .err (.invalidDate key)
      | _ => .err (.notDateValue key)
    | .media =>
      match value with
      | .str s =>
        if mediaSizeInBytes s > 2 * 1024 * 1024 then .err (.mediaTooLarge key)
        else .store (.str s)
      | _ => .err (.notMediaString key)
    | _ => .skip

/-- The `for (const [key, value] of Object.entries(data))` loop of
`validateData`. -/
def validateDataEntries (t : FieldType) : List (String × JSValue) → JSRecord → Except VError JSRecord
  | [], validated => .ok validated
  | (k, v) :: rest, validated =>
    match dataEntryCheck t k v with
    | .err e => .error e
    | .skip => validateDataEntries t rest validated
    | .store w => validateDataEntries t rest (setProp validated k w)

/-- Embedding of `validateData` (validation module, lines 18 to 75). -/
def validateData (data : JSRecord) (t : FieldType) : Except VError JSRecord :=
  validateDataEntries t data []

/-- Names of the schema fields, in declared order. -/
def fieldNames (fields : List FieldDef) : List String := fields.map FieldDef.name

/-- The error the check of one field would raise, as a pure function of
the payload: `none` when the field passes (by storing or by falling
through). -/
def fieldError (data : JSRecord) (f : FieldDef) : Option VError :=
  match valueOutcome f (getProp data f.name) with
  | .err e => some e
  | _ => none

/-- The kinds that have a `case` in the content validator's `switch`. -/
def handledKind : FieldType → Bool
  | .enum => false
  | .price => false
  | _ => true

/-- The entries a successful run appends to the accumulator, in field
order: `none` when some field check raises. -/
def runEntries (data : JSRecord) : List FieldDef → Option (List (String × JSValue))
  | [] => some []
  | f :: rest =>
    match valueOutcome f (getProp data f.name) with
    | .err _ => none
    | .skip => runEntries data rest
    | .store v => (runEntries data rest).map (fun es => (f.name, v) :: es)

/-- Modelled from the claim words: the canonical lowercase-hex UUID
textual form, i.e. the grouped shape with no uppercase hex digit. -/
def specLowercaseUuid (l : List Char) : Bool :=
  uuidShape l && l.all (fun c => !('A' ≤ c && c ≤ 'F'))

/-- Wrong runtime type for a declared kind, per the checks of the
validator: a non-number for `number`, a non-string for `text`,
`relation` and `media`, a non-boolean for `boolean`, and for `date` a
value that is neither a string nor a `Date` object. -/
def wrongType (t : FieldType) (v : JSValue) : Bool :=
  match t, v with
  | .number, .num _ => false
  | .number, _ => true
  | .text, .str _ => false
  | .text, _ => true
  | .date, .str _ => false
  | .date, .jsdate _ => false
  | .date, _ => true
  | .boolean, .bool _ => false
  | .boolean, _ => true
  | .relation, .str _ => false
  | .relation, _ => true
  | .media, .str _ => false
  | .media, _ => true
  | .enum, _ => false
  | .price, _ => false

/-- A field definition with no relation target and no options. -/
def mkField (n : String) (t : FieldType) (opt : Bool) : FieldDef :=
  {name := n, type := t, optional := opt, relation := none, options := none}

/-- An enum field definition with its options list. -/
def mkEnumField (n : String) (opts : List String) : FieldDef :=
  {name := n, type := .enum, optional := false, relation := none, options := some opts}

/-! ## Theorems -/

theorem era_split (z : Int) :
    146097 * eraOfZ z + doeOfZ z = z + 719468 ∧ 0 ≤ doeOfZ z ∧ doeOfZ z < 146097 := by
  unfold eraOfZ doeOfZ; omega

theorem century_split (doe : Int) (h0 : 0 ≤ doe) (h1 : doe < 146097) :
    0 ≤ centuryOfDoe doe ∧ centuryOfDoe doe ≤ 3 ∧
    0 ≤ docOfDoe doe ∧ docOfDoe doe ≤ 36524 ∧
    (146097 * centuryOfDoe doe) / 4 + docOfDoe doe = doe := by
  unfold centuryOfDoe docOfDoe; omega

theorem year_split (doc : Int) (h0 : 0 ≤ doc) (h1 : doc ≤ 36524) :
    0 ≤ zzOfDoc doc ∧ zzOfDoc doc ≤ 99 ∧
    0 ≤ doyOfDoc doc ∧ doyOfDoc doc ≤ 365 ∧
    (1461 * zzOfDoc doc) / 4 + doyOfDoc doc = doc := by
  unfold zzOfDoc doyOfDoc; omega

theorem month_split (doy : Int) (h0 : 0 ≤ doy) (h1 : doy ≤ 365) :
    0 ≤ mpOfDoy doy ∧ mpOfDoy doy ≤ 11 ∧
    1 ≤ domOfDoy doy ∧ domOfDoy doy ≤ 31 ∧
    1 ≤ monthOfDoy doy ∧ monthOfDoy doy ≤ 12 ∧
    (2 < monthOfDoy doy ↔ mpOfDoy doy < 10) ∧
    (if 2 < monthOfDoy doy then monthOfDoy doy - 3 else monthOfDoy doy + 9) = mpOfDoy doy ∧
    (153 * mpOfDoy doy + 2) / 5 + domOfDoy doy - 1 = doy := by
  unfold monthOfDoy domOfDoy mpOfDoy
  split_ifs <;> omega

theorem year_start_eq (c zz : Int) (hc0 : 0 ≤ c) (hc1 : c ≤ 3) (hz0 : 0 ≤ zz) (hz1 : zz ≤ 99) :
    365 * (100 * c + zz) + (100 * c + zz) / 4 - (100 * c + zz) / 100 =
      (146097 * c) / 4 + (1461 * zz) / 4 := by
  have e1 : (100 * c + zz) / 4 = 25 * c + zz / 4 := by omega
  have e2 : (100 * c + zz) / 100 = c := by omega
  have e3 : (1461 * zz) / 4 = 365 * zz + zz / 4 := by omega
  have e4 : (146097 * c) / 4 = 36524 * c + c / 4 := by omega
  have e5 : c / 4 = 0 := by omega
  omega

/-- The calendar extraction is a right inverse of the day-number function. -/
theorem days_civil_roundtrip (z : Int) :
    daysFromCivil (civilYear z) (civilMonth z) (civilDay z) = z := by
  obtain ⟨hera, hd0, hd1⟩ := era_split z
  obtain ⟨hc0, hc1, hdoc0, hdoc1, hcent⟩ := century_split (doeOfZ z) hd0 hd1
  obtain ⟨hz0, hz1, hy0, hy1, hyear⟩ := year_split (docOfDoe (doeOfZ z)) hdoc0 hdoc1
  obtain ⟨hmp0, hmp1, hdm0, hdm1, hm0, hm1, hmiff, hmback, hmon⟩ :=
    month_split (doyOfDoc (docOfDoe (doeOfZ z))) hy0 hy1
  have hys := year_start_eq (centuryOfDoe (doeOfZ z)) (zzOfDoc (docOfDoe (doeOfZ z))) hc0 hc1 hz0 hz1
  unfold daysFromCivil civilYear
  simp only [civilMonth, civilDay] at *
  set C := centuryOfDoe (doeOfZ z) with hC
  set ZZ := zzOfDoc (docOfDoe (doeOfZ z)) with hZZ
  set DOY := doyOfDoc (docOfDoe (doeOfZ z)) with hDOY
  set M := monthOfDoy DOY with hM
  set D := domOfDoy DOY with hD
  set MP := mpOfDoy DOY with hMP
  by_cases hm2 : M ≤ 2
  · simp only [if_pos hm2]
    have hy : 100 * C + ZZ + 400 * eraOfZ z + 1 - 1 = 100 * C + ZZ + 400 * eraOfZ z := by ring
    rw [hy]
    have h2m : ¬ 2 < M := by omega
    rw [if_neg h2m] at hmback ⊢
    have herad : (100 * C + ZZ + 400 * eraOfZ z) / 400 = eraOfZ z := by omega
    rw [herad, hmback]
    have hyoe2 : 100 * C + ZZ + 400 * eraOfZ z - 400 * eraOfZ z = 100 * C + ZZ := by ring
    rw [hyoe2]
    omega
  · simp only [if_neg hm2]
    have h2m : 2 < M := by omega
    rw [if_pos h2m] at hmback ⊢
    have herad : (100 * C + ZZ + 400 * eraOfZ z) / 400 = eraOfZ z := by omega
    rw [herad, hmback]
    have hyoe2 : 100 * C + ZZ + 400 * eraOfZ z - 400 * eraOfZ z = 100 * C + ZZ := by ring
    rw [hyoe2]
    omega

theorem digitVal_digitChar : ∀ k, k < 10 → digitVal (Nat.digitChar k) = some k := by decide

theorem digitChar_not_sign : ∀ k, k < 10 →
    Nat.digitChar k ≠ '+' ∧ Nat.digitChar k ≠ '-' := by decide

theorem parseDigits_padList :
    ∀ (k acc n : Nat) (rest : List Char), n < 10 ^ k →
      parseDigits k acc (padList k n ++ rest) = some (acc * 10 ^ k + n, rest) := by
  intro k
  induction k with
  | zero =>
    intro acc n rest hn
    have hn0 : n = 0 := by simpa using hn
    subst hn0
    simp [padList, parseDigits]
  | succ k ih =>
    intro acc n rest hn
    have hpow : 0 < 10 ^ k := Nat.pos_pow_of_pos k (by norm_num)
    have hq : n / 10 ^ k < 10 := by
      rw [Nat.div_lt_iff_lt_mul hpow]
      rw [pow_succ] at hn
      omega
    have hr : n % 10 ^ k < 10 ^ k := Nat.mod_lt _ hpow
    have hstep : padList (k + 1) n ++ rest
        = Nat.digitChar (n / 10 ^ k) :: (padList k (n % 10 ^ k) ++ rest) := by
      rw [padList, List.cons_append]
    rw [hstep, parseDigits, digitVal_digitChar _ hq]
    show parseDigits k (10 * acc + n / 10 ^ k) (padList k (n % 10 ^ k) ++ rest) = _
    rw [ih _ _ rest hr]
    have hdm : 10 ^ k * (n / 10 ^ k) + n % 10 ^ k = n := Nat.div_add_mod n (10 ^ k)
    have harith : (10 * acc + n / 10 ^ k) * 10 ^ k + n % 10 ^ k = acc * 10 ^ (k + 1) + n := by
      calc (10 * acc + n / 10 ^ k) * 10 ^ k + n % 10 ^ k
          = acc * (10 ^ k * 10) + (10 ^ k * (n / 10 ^ k) + n % 10 ^ k) := by ring
        _ = acc * 10 ^ (k + 1) + n := by rw [hdm, pow_succ]
    rw [harith]

theorem parseDigits0 (k n : Nat) (rest : List Char) (hn : n < 10 ^ k) :
    parseDigits k 0 (padList k n ++ rest) = some (n, rest) := by
  rw [parseDigits_padList k 0 n rest hn]
  simp

theorem jsDateParse_mk (l : List Char) :
    jsDateParse (String.mk l) =
      match l with
      | [] => none
      | c :: rest =>
        if c = '+' then
          match parseDigits 6 0 rest with
          | some (y, r2) => parseYearTail (y : Int) r2
          | none => none
        else if c = '-' then
          match parseDigits 6 0 rest with
          | some (y, r2) => if y = 0 then none else parseYearTail (-(y : Int)) r2
          | none => none
        else
          match parseDigits 4 0 (c :: rest) with
          | some (y, r2) => parseYearTail (y : Int) r2
          | none => none := rfl

theorem jsDateParse_pad4 (n : Nat) (hn : n ≤ 9999) (rest : List Char) :
    jsDateParse (String.mk (padList 4 n ++ rest)) = parseYearTail (n : Int) rest := by
  have hq : n / 1000 < 10 := by omega
  have hpad : padList 4 n = Nat.digitChar (n / 1000) :: padList 3 (n % 1000) := by
    show padList (3 + 1) n = _
    rw [padList]
    norm_num
  obtain ⟨hp, hm⟩ := digitChar_not_sign (n / 1000) hq
  rw [jsDateParse_mk]
  simp only [hpad, List.cons_append]
  rw [if_neg hp, if_neg hm, ← List.cons_append, ← hpad]
  rw [parseDigits0 4 n rest (by norm_num; omega)]

theorem jsDateParse_pad6_pos (n : Nat) (hn : n ≤ 999999) (rest : List Char) :
    jsDateParse (String.mk ('+' :: (padList 6 n ++ rest))) = parseYearTail (n : Int) rest := by
  rw [jsDateParse_mk]
  simp only [reduceIte]
  rw [parseDigits0 6 n rest (by norm_num; omega)]

theorem jsDateParse_pad6_neg (n : Nat) (h0 : 0 < n) (hn : n ≤ 999999) (rest : List Char) :
    jsDateParse (String.mk ('-' :: (padList 6 n ++ rest))) = parseYearTail (-(n : Int)) rest := by
  rw [jsDateParse_mk]
  simp only [reduceIte]
  rw [parseDigits0 6 n rest (by norm_num; omega)]
  have hne : n ≠ 0 := by omega
  simp [hne]

theorem parseYearTail_month (y : Int) (m : Nat) (h1 : 1 ≤ m) (h2 : m ≤ 12) (rest : List Char) :
    parseYearTail y ('-' :: (padList 2 m ++ rest)) = parseMonthTail y m rest := by
  rw [parseYearTail]
  simp only [reduceIte]
  rw [parseDigits0 2 m rest (by norm_num; omega)]
  simp [h1, h2]

theorem parseMonthTail_day (y : Int) (m d : Nat) (h1 : 1 ≤ d) (h2 : d ≤ 31) (rest : List Char) :
    parseMonthTail y m ('-' :: (padList 2 d ++ rest)) = parseDayTail y m d rest := by
  rw [parseMonthTail]
  simp only [reduceIte]
  rw [parseDigits0 2 d rest (by norm_num; omega)]
  simp [h1, h2]

theorem parseDayTail_time (y : Int) (m d : Nat) (rest : List Char) :
    parseDayTail y m d ('T' :: rest) = parseTimeTail y m d rest := by
  rw [parseDayTail]
  simp

theorem parseSecFrac_full (ss ms : Nat) (hss : ss ≤ 59) (hms : ms ≤ 999) (rest : List Char) :
    parseSecFrac (':' :: (padList 2 ss ++ '.' :: (padList 3 ms ++ rest))) =
      some (ss, ms, rest) := by
  rw [parseSecFrac]
  simp only [reduceIte]
  rw [parseDigits0 2 ss ('.' :: (padList 3 ms ++ rest)) (by norm_num; omega)]
  simp only [hss, if_pos]
  rw [parseFrac]
  simp only [reduceIte]
  rw [parseDigits0 3 ms rest (by norm_num; omega)]

theorem parseOffset_z : parseOffset ['Z'] = some 0 := by
  rw [parseOffset]
  simp

theorem parseTimeTail_full (y : Int) (m d hh mi ss ms : Nat)
    (hhh : hh ≤ 23) (hmi : mi ≤ 59) (hss : ss ≤ 59) (hms : ms ≤ 999) :
    parseTimeTail y m d
      (padList 2 hh ++ ':' :: (padList 2 mi ++ ':' :: (padList 2 ss ++ '.' ::
        (padList 3 ms ++ ['Z'])))) = mkTime y m d hh mi ss ms 0 := by
  rw [parseTimeTail]
  rw [parseDigits0 2 hh _ (by norm_num; omega)]
  show (match afterChar ':' (':' :: (padList 2 mi ++ ':' :: (padList 2 ss ++ '.' ::
      (padList 3 ms ++ ['Z'])))) with
    | some r2 =>
      match parseDigits 2 0 r2 with
      | some (mi2, r3) =>
        if hh ≤ 24 ∧ mi2 ≤ 59 then
          match parseSecFrac r3 with
          | some (ss2, ms2, r4) =>
            match parseOffset r4 with
            | some off =>
              if hh = 24 ∧ ¬(mi2 = 0 ∧ ss2 = 0 ∧ ms2 = 0) then none
              else mkTime y m d hh mi2 ss2 ms2 off
            | none => none
          | none => none
        else none
      | none => none
    | none => none) = mkTime y m d hh mi ss ms 0
  rw [afterChar]
  simp only [reduceIte]
  rw [parseDigits0 2 mi _ (by norm_num; omega)]
  have hc : hh ≤ 24 ∧ mi ≤ 59 := ⟨by omega, hmi⟩
  have h24 : ¬(hh = 24 ∧ ¬(mi = 0 ∧ ss = 0 ∧ ms = 0)) := by omega
  simp [hc, h24, parseSecFrac_full ss ms hss hms, parseOffset_z]
  intro h1 _
  exact absurd h1 (by omega)

theorem civil_month_day_bounds (z : Int) :
    1 ≤ civilMonth z ∧ civilMonth z ≤ 12 ∧ 1 ≤ civilDay z ∧ civilDay z ≤ 31 := by
  obtain ⟨hera, hd0, hd1⟩ := era_split z
  obtain ⟨hc0, hc1, hdoc0, hdoc1, hcent⟩ := century_split (doeOfZ z) hd0 hd1
  obtain ⟨hz0, hz1, hy0, hy1, hyear⟩ := year_split (docOfDoe (doeOfZ z)) hdoc0 hdoc1
  obtain ⟨hmp0, hmp1, hdm0, hdm1, hm0, hm1, _, _, _⟩ :=
    month_split (doyOfDoc (docOfDoe (doeOfZ z))) hy0 hy1
  exact ⟨hm0, hm1, hdm0, hdm1⟩

theorem civilYear_bounds (z : Int) (h1 : -100000001 ≤ z) (h2 : z ≤ 100000001) :
    -999999 ≤ civilYear z ∧ civilYear z ≤ 999999 := by
  obtain ⟨hera, hd0, hd1⟩ := era_split z
  obtain ⟨hc0, hc1, hdoc0, hdoc1, hcent⟩ := century_split (doeOfZ z) hd0 hd1
  obtain ⟨hz0, hz1, hy0, hy1, hyear⟩ := year_split (docOfDoe (doeOfZ z)) hdoc0 hdoc1
  have heb : -685 ≤ eraOfZ z ∧ eraOfZ z ≤ 690 := by
    unfold eraOfZ
    omega
  simp only [civilYear]
  split_ifs <;> omega

/-- A successfully rendered time value within the ECMA time range parses
back to itself: `new Date(d.toISOString()).getTime() === d.getTime()`. -/
theorem jsDateParse_toISOString (t : Int) (h1 : -msLimit ≤ t) (h2 : t ≤ msLimit) :
    jsDateParse (toISOString t) = some t := by
  have hml : msLimit = 8640000000000000 := rfl
  have hmsod0 : 0 ≤ t % 86400000 := Int.emod_nonneg t (by norm_num)
  have hmsod1 : t % 86400000 < 86400000 := Int.emod_lt_of_pos t (by norm_num)
  have hsplit : 86400000 * (t / 86400000) + t % 86400000 = t := Int.ediv_add_emod t 86400000
  have hdays0 : -100000000 ≤ t / 86400000 := by omega
  have hdays1 : t / 86400000 ≤ 100000000 := by omega
  obtain ⟨hm1, hm2, hd1, hd2⟩ := civil_month_day_bounds (t / 86400000)
  obtain ⟨hy1, hy2⟩ := civilYear_bounds (t / 86400000) (by omega) (by omega)
  have hrt := days_civil_roundtrip (t / 86400000)
  simp only [toISOString]
  simp only [List.cons_append, List.append_assoc]
  -- time-of-day components
  have hmsodt0 : (t % 86400000).toNat / 3600000 ≤ 23 := by omega
  have hmsodt1 : (t % 86400000).toNat / 60000 % 60 ≤ 59 := by omega
  have hmsodt2 : (t % 86400000).toNat / 1000 % 60 ≤ 59 := by omega
  have hmsodt3 : (t % 86400000).toNat % 1000 ≤ 999 := by omega
  have hmcast : ((civilMonth (t / 86400000)).toNat : Int) = civilMonth (t / 86400000) := by
    omega
  have hdcast : ((civilDay (t / 86400000)).toNat : Int) = civilDay (t / 86400000) := by
    omega
  have hmt1 : 1 ≤ (civilMonth (t / 86400000)).toNat := by omega
  have hmt2 : (civilMonth (t / 86400000)).toNat ≤ 12 := by omega
  have hdt1 : 1 ≤ (civilDay (t / 86400000)).toNat := by omega
  have hdt2 : (civilDay (t / 86400000)).toNat ≤ 31 := by omega
  have hmk : mkTime (civilYear (t / 86400000)) (civilMonth (t / 86400000)).toNat
      (civilDay (t / 86400000)).toNat ((t % 86400000).toNat / 3600000)
      ((t % 86400000).toNat / 60000 % 60) ((t % 86400000).toNat / 1000 % 60)
      ((t % 86400000).toNat % 1000) 0 = some t := by
    simp only [mkTime, msLimit]
    rw [hmcast, hdcast, hrt]
    simp only [msLimit] at h1 h2
    split_ifs with hrange
    · congr 1
      omega
    · exfalso
      apply hrange
      constructor <;> omega
  by_cases hcase : 0 ≤ civilYear (t / 86400000) ∧ civilYear (t / 86400000) ≤ 9999
  · rw [if_pos hcase]
    rw [jsDateParse_pad4 (civilYear (t / 86400000)).toNat (by omega) _]
    have hyc : (((civilYear (t / 86400000)).toNat : Nat) : Int) = civilYear (t / 86400000) := by
      omega
    rw [hyc]
    rw [parseYearTail_month _ _ hmt1 hmt2, parseMonthTail_day _ _ _ hdt1 hdt2,
      parseDayTail_time, parseTimeTail_full _ _ _ _ _ _ _ hmsodt0 hmsodt1 hmsodt2 hmsodt3]
    exact hmk
  · rw [if_neg hcase]
    by_cases hneg : civilYear (t / 86400000) < 0
    · rw [if_pos hneg]
      simp only [List.cons_append, List.append_assoc]
      rw [jsDateParse_pad6_neg (-civilYear (t / 86400000)).toNat (by omega) (by omega) _]
      have hyc : -(((-civilYear (t / 86400000)).toNat : Nat) : Int)
          = civilYear (t / 86400000) := by omega
      rw [hyc]
      rw [parseYearTail_month _ _ hmt1 hmt2, parseMonthTail_day _ _ _ hdt1 hdt2,
        parseDayTail_time, parseTimeTail_full _ _ _ _ _ _ _ hmsodt0 hmsodt1 hmsodt2 hmsodt3]
      exact hmk
    · rw [if_neg hneg]
      simp only [List.cons_append, List.append_assoc]
      rw [jsDateParse_pad6_pos (civilYear (t / 86400000)).toNat (by omega) _]
      have hyc : (((civilYear (t / 86400000)).toNat : Nat) : Int) = civilYear (t / 86400000) := by
        omega
      rw [hyc]
      rw [parseYearTail_month _ _ hmt1 hmt2, parseMonthTail_day _ _ _ hdt1 hdt2,
        parseDayTail_time, parseTimeTail_full _ _ _ _ _ _ _ hmsodt0 hmsodt1 hmsodt2 hmsodt3]
      exact hmk

theorem hasKey_setProp (r : JSRecord) (k k2 : String) (v : JSValue) :
    hasKey (setProp r k v) k2 = (k = k2 || hasKey r k2) := by
  induction r with
  | nil => simp [setProp, hasKey]
  | cons p rest ih =>
    obtain ⟨k0, w⟩ := p
    by_cases h : k0 = k
    · subst h
      simp only [setProp, if_pos rfl, hasKey]
      by_cases h2 : k0 = k2 <;> simp [h2]
    · simp only [setProp, if_neg h, hasKey, ih]
      by_cases h2 : k0 = k2
      · subst h2
        simp [show k ≠ k0 from fun hc => h hc.symm]
      · simp [h2]

theorem getProp_setProp_ne (r : JSRecord) (k k2 : String) (v : JSValue) (h : k ≠ k2) :
    getProp (setProp r k v) k2 = getProp r k2 := by
  induction r with
  | nil => simp [setProp, getProp, h]
  | cons p rest ih =>
    obtain ⟨k0, w⟩ := p
    by_cases h0 : k0 = k
    · subst h0
      simp only [setProp, if_pos rfl, getProp]
      by_cases h2 : k0 = k2
      · exact absurd (h2 ▸ h) (by simp [h2])
      · simp [h2]
    · simp only [setProp, if_neg h0, getProp, ih]

theorem setProp_fresh (r : JSRecord) (k : String) (v : JSValue) (h : hasKey r k = false) :
    setProp r k v = r ++ [(k, v)] := by
  induction r with
  | nil => simp [setProp]
  | cons p rest ih =>
    obtain ⟨k0, w⟩ := p
    simp only [hasKey, Bool.or_eq_false_iff, decide_eq_false_iff_not] at h
    simp only [setProp, if_neg h.1, List.cons_append, List.cons.injEq, true_and]
    exact ih h.2

theorem getProp_append_left (r1 r2 : JSRecord) (k : String) (h : hasKey r1 k = true) :
    getProp (r1 ++ r2) k = getProp r1 k := by
  induction r1 with
  | nil => simp [hasKey] at h
  | cons p rest ih =>
    obtain ⟨k0, w⟩ := p
    by_cases h0 : k0 = k
    · simp [getProp, h0]
    · simp only [hasKey, Bool.or_eq_true, decide_eq_true_eq] at h
      rcases h with h | h
      · exact absurd h h0
      · simp only [List.cons_append, getProp, if_neg h0]
        exact ih h

theorem getProp_append_right (r1 r2 : JSRecord) (k : String) (h : hasKey r1 k = false) :
    getProp (r1 ++ r2) k = getProp r2 k := by
  induction r1 with
  | nil => simp
  | cons p rest ih =>
    obtain ⟨k0, w⟩ := p
    simp only [hasKey, Bool.or_eq_false_iff, decide_eq_false_iff_not] at h
    simp only [List.cons_append, getProp, if_neg h.1]
    exact ih h.2

theorem getProp_not_hasKey (r : JSRecord) (k : String) (h : hasKey r k = false) :
    getProp r k = .undef := by
  induction r with
  | nil => rfl
  | cons p rest ih =>
    obtain ⟨k0, w⟩ := p
    simp only [hasKey, Bool.or_eq_false_iff, decide_eq_false_iff_not] at h
    simp only [getProp, if_neg h.1]
    exact ih h.2

/-- Every error raised by a field check carries that field's name. -/
theorem valueOutcome_err_name : ∀ (f : FieldDef) (v : JSValue) (e : VError),
    valueOutcome f v = .err e → e.fieldName = f.name := by
  intro f v e
  obtain ⟨name, ftype, opt, rel, opts⟩ := f
  unfold valueOutcome
  simp only []
  split_ifs with h1 h2
  · intro h; cases h; rfl
  · intro h; cases h
  · cases ftype <;> cases v <;> simp only [] <;> intro h <;>
      first
        | (cases h; rfl)
        | cases h
        | (split at h <;> first | (cases h; rfl) | cases h)

theorem validateFields_error_iff (data : JSRecord) :
    ∀ (fields : List FieldDef) (acc : JSRecord) (e : VError),
      validateFields data fields acc = .error e ↔
        ∃ pre f post, fields = pre ++ f :: post ∧
          (∀ g ∈ pre, fieldError data g = none) ∧ fieldError data f = some e := by
  intro fields
  induction fields with
  | nil =>
    intro acc e
    simp only [validateFields]
    constructor
    · intro h; cases h
    · rintro ⟨pre, f, post, habs, -, -⟩
      exact absurd habs (by simp)
  | cons f rest ih =>
    intro acc e
    simp only [validateFields]
    rcases ho : valueOutcome f (getProp data f.name) with e0 | _ | v
    · simp only []
      constructor
      · intro h
        cases h
        exact ⟨[], f, rest, rfl, by simp, by simp [fieldError, ho]⟩
      · rintro ⟨pre, g, post, hsplit, hpre, hg⟩
        rcases pre with _ | ⟨p0, pre'⟩
        · simp at hsplit
          obtain ⟨hf, -⟩ := hsplit
          subst hf
          simp only [fieldError, ho] at hg
          cases hg
          rfl
        · simp only [List.cons_append, List.cons.injEq] at hsplit
          obtain ⟨hf, -⟩ := hsplit
          subst hf
          have := hpre f (by simp)
          simp [fieldError, ho] at this
    · simp only []
      rw [ih acc e]
      constructor
      · rintro ⟨pre, g, post, hsplit, hpre, hg⟩
        refine ⟨f :: pre, g, post, by simp [hsplit], ?_, hg⟩
        intro g2 hg2
        rcases List.mem_cons.mp hg2 with h2 | h2
        · subst h2; simp [fieldError, ho]
        · exact hpre g2 h2
      · rintro ⟨pre, g, post, hsplit, hpre, hg⟩
        rcases pre with _ | ⟨p0, pre'⟩
        · simp only [List.nil_append, List.cons.injEq] at hsplit
          obtain ⟨hf, -⟩ := hsplit
          subst hf
          simp [fieldError, ho] at hg
        · simp only [List.cons_append, List.cons.injEq] at hsplit
          obtain ⟨-, hrest⟩ := hsplit
          exact ⟨pre', g, post, hrest, fun g2 h2 => hpre g2 (by simp [h2]), hg⟩
    · simp only []
      rw [ih (setProp acc f.name v) e]
      constructor
      · rintro ⟨pre, g, post, hsplit, hpre, hg⟩
        refine ⟨f :: pre, g, post, by simp [hsplit], ?_, hg⟩
        intro g2 hg2
        rcases List.mem_cons.mp hg2 with h2 | h2
        · subst h2; simp [fieldError, ho]
        · exact hpre g2 h2
      · rintro ⟨pre, g, post, hsplit, hpre, hg⟩
        rcases pre with _ | ⟨p0, pre'⟩
        · simp only [List.nil_append, List.cons.injEq] at hsplit
          obtain ⟨hf, -⟩ := hsplit
          subst hf
          simp [fieldError, ho] at hg
        · simp only [List.cons_append, List.cons.injEq] at hsplit
          obtain ⟨-, hrest⟩ := hsplit
          exact ⟨pre', g, post, hrest, fun g2 h2 => hpre g2 (by simp [h2]), hg⟩

theorem validateFields_ok_iff (data : JSRecord) :
    ∀ (fields : List FieldDef) (acc : JSRecord),
      (∃ out, validateFields data fields acc = .ok out) ↔
        ∀ f ∈ fields, fieldError data f = none := by
  intro fields
  induction fields with
  | nil =>
    intro acc
    simp [validateFields]
  | cons f rest ih =>
    intro acc
    simp only [validateFields]
    rcases ho : valueOutcome f (getProp data f.name) with e0 | _ | v
    · simp only []
      constructor
      · rintro ⟨out, hout⟩; cases hout
      · intro h
        have := h f (by simp)
        simp [fieldError, ho] at this
    · simp only []
      rw [ih acc]
      constructor
      · intro h g hg
        rcases List.mem_cons.mp hg with h2 | h2
        · subst h2; simp [fieldError, ho]
        · exact h g h2
      · intro h g hg
        exact h g (by simp [hg])
    · simp only []
      rw [ih (setProp acc f.name v)]
      constructor
      · intro h g hg
        rcases List.mem_cons.mp hg with h2 | h2
        · subst h2; simp [fieldError, ho]
        · exact h g h2
      · intro h g hg
        exact h g (by simp [hg])

theorem validateFields_keys (data : JSRecord) :
    ∀ (fields : List FieldDef) (acc out : JSRecord),
      validateFields data fields acc = .ok out →
      ∀ k, hasKey out k = true → hasKey acc k = true ∨ k ∈ fieldNames fields := by
  intro fields
  induction fields with
  | nil =>
    intro acc out h k hk
    cases h
    exact Or.inl hk
  | cons f rest ih =>
    intro acc out h k hk
    simp only [validateFields] at h
    rcases ho : valueOutcome f (getProp data f.name) with e0 | _ | v <;> rw [ho] at h
    · cases h
    · rcases ih acc out h k hk with h2 | h2
      · exact Or.inl h2
      · exact Or.inr (by simp [fieldNames] at h2 ⊢; exact Or.inr h2)
    · rcases ih (setProp acc f.name v) out h k hk with h2 | h2
      · rw [hasKey_setProp] at h2
        rcases Bool.or_eq_true_iff.mp h2 with h3 | h3
        · simp only [decide_eq_true_eq] at h3
          exact Or.inr (by simp [fieldNames, h3])
        · exact Or.inl h3
      · exact Or.inr (by simp [fieldNames] at h2 ⊢; exact Or.inr h2)

theorem validateFields_hasKey_mono (data : JSRecord) :
    ∀ (fields : List FieldDef) (acc out : JSRecord),
      validateFields data fields acc = .ok out →
      ∀ k, hasKey acc k = true → hasKey out k = true := by
  intro fields
  induction fields with
  | nil =>
    intro acc out h k hk
    cases h
    exact hk
  | cons f rest ih =>
    intro acc out h k hk
    simp only [validateFields] at h
    rcases ho : valueOutcome f (getProp data f.name) with e0 | _ | v <;> rw [ho] at h
    · cases h
    · exact ih acc out h k hk
    · exact ih (setProp acc f.name v) out h k
        (by rw [hasKey_setProp]; simp [hk])

/-- A non-optional field of a handled kind never falls through: its check
either fails or stores a value. -/
theorem valueOutcome_no_skip : ∀ (f : FieldDef) (v : JSValue),
    handledKind f.type = true → f.optional = false → valueOutcome f v ≠ .skip := by
  intro f v hh hopt
  obtain ⟨name, ftype, opt, rel, opts⟩ := f
  simp only at hopt
  subst hopt
  cases ftype <;>
    first
      | (unfold valueOutcome
         simp only []
         split_ifs with h1 h2
         · intro h; cases h
         · exfalso; simp [h2] at h1
         · cases v <;> simp only [] <;>
             first
               | (intro h; cases h; done)
               | (intro h; split at h <;> cases h))
      | simp [handledKind] at hh

theorem validateFields_required (data : JSRecord) :
    ∀ (fields : List FieldDef) (acc out : JSRecord),
      validateFields data fields acc = .ok out →
      ∀ f ∈ fields, f.optional = false → handledKind f.type = true →
        hasKey out f.name = true := by
  intro fields
  induction fields with
  | nil =>
    intro acc out h f hf
    simp at hf
  | cons g rest ih =>
    intro acc out h f hf hopt hhand
    simp only [validateFields] at h
    rcases ho : valueOutcome g (getProp data g.name) with e0 | _ | v <;> rw [ho] at h
    · cases h
    · rcases List.mem_cons.mp hf with h2 | h2
      · subst h2
        exact absurd ho (valueOutcome_no_skip f _ hhand hopt)
      · exact ih acc out h f h2 hopt hhand
    · rcases List.mem_cons.mp hf with h2 | h2
      · subst h2
        exact validateFields_hasKey_mono data rest _ out h f.name
          (by rw [hasKey_setProp]; simp)
      · exact ih (setProp acc g.name v) out h f h2 hopt hhand

/-- Payload keys that name no schema field do not influence validation at
all: adding or overwriting such a key leaves the result unchanged. -/
theorem validateFields_extra_key (data : JSRecord) (k : String) (v : JSValue) :
    ∀ (fields : List FieldDef) (acc : JSRecord),
      (∀ f ∈ fields, f.name ≠ k) →
      validateFields (setProp data k v) fields acc = validateFields data fields acc := by
  intro fields
  induction fields with
  | nil => intro acc h; rfl
  | cons f rest ih =>
    intro acc h
    have hne : f.name ≠ k := h f (by simp)
    simp only [validateFields, getProp_setProp_ne data k f.name v (fun hc => hne hc.symm)]
    rcases ho : valueOutcome f (getProp data f.name) with e0 | _ | w
    · rfl
    · exact ih acc (fun g hg => h g (by simp [hg]))
    · exact ih (setProp acc f.name w) (fun g hg => h g (by simp [hg]))

theorem mkTime_range {y : Int} {m d hh mi ss ms : Nat} {off t : Int}
    (h : mkTime y m d hh mi ss ms off = some t) : -msLimit ≤ t ∧ t ≤ msLimit := by
  simp only [mkTime] at h
  split at h
  · cases h
    assumption
  · cases h

theorem parseTimeTail_range {y : Int} {m d : Nat} {l : List Char} {t : Int}
    (h : parseTimeTail y m d l = some t) : -msLimit ≤ t ∧ t ≤ msLimit := by
  unfold parseTimeTail at h
  repeat' split at h
  all_goals first | (cases h) | (exact mkTime_range h)

theorem parseDayTail_range {y : Int} {m d : Nat} {l : List Char} {t : Int}
    (h : parseDayTail y m d l = some t) : -msLimit ≤ t ∧ t ≤ msLimit := by
  cases l with
  | nil => exact mkTime_range h
  | cons c rest =>
    simp only [parseDayTail] at h
    split at h
    · exact parseTimeTail_range h
    · cases h

theorem parseMonthTail_range {y : Int} {m : Nat} {l : List Char} {t : Int}
    (h : parseMonthTail y m l = some t) : -msLimit ≤ t ∧ t ≤ msLimit := by
  cases l with
  | nil => exact mkTime_range h
  | cons c rest =>
    simp only [parseMonthTail] at h
    repeat' split at h
    all_goals
      first
      | (cases h)
      | (exact mkTime_range h)
      | (exact parseDayTail_range h)
      | (exact parseTimeTail_range h)

theorem parseYearTail_range {y : Int} {l : List Char} {t : Int}
    (h : parseYearTail y l = some t) : -msLimit ≤ t ∧ t ≤ msLimit := by
  cases l with
  | nil => exact mkTime_range h
  | cons c rest =>
    simp only [parseYearTail] at h
    repeat' split at h
    all_goals
      first
      | (cases h)
      | (exact mkTime_range h)
      | (exact parseMonthTail_range h)
      | (exact parseTimeTail_range h)

theorem jsDateParse_range {s : String} {t : Int}
    (h : jsDateParse s = some t) : -msLimit ≤ t ∧ t ≤ msLimit := by
  unfold jsDateParse at h
  repeat' split at h
  all_goals first | (cases h) | (exact parseYearTail_range h)

theorem clipTime_range {ot : Option Int} {t : Int}
    (h : clipTime ot = some t) : -msLimit ≤ t ∧ t ≤ msLimit := by
  cases ot with
  | none => cases h
  | some u =>
    simp only [clipTime] at h
    split at h
    · cases h
      assumption
    · cases h

/-- Re-checking a stored value stores it back unchanged. -/
theorem valueOutcome_renorm : ∀ (f : FieldDef) (v w : JSValue),
    valueOutcome f v = .store w → valueOutcome f w = .store w := by
  intro f v w h
  obtain ⟨name, ftype, opt, rel, opts⟩ := f
  unfold valueOutcome at h ⊢
  simp only [] at h ⊢
  cases hv : isNullish v
  case true =>
    rw [hv] at h
    cases opt <;> simp at h
  case false =>
    rw [hv] at h
    simp only [Bool.false_and, Bool.false_eq_true, if_false] at h
    cases ftype <;> cases v <;> simp only [] at h <;>
      first
      | (cases h; done)
      | (cases h; simp [isNullish]; done)
      | (rename_i s
         rcases hx : jsDateParse s with _ | t <;> rw [hx] at h <;> cases h
         have hr := jsDateParse_range hx
         have hrt := jsDateParse_toISOString t hr.1 hr.2
         simp [isNullish, hrt]
         done)
      | (rename_i ot
         rcases hx : clipTime ot with _ | t <;> rw [hx] at h <;> cases h
         have hr := clipTime_range hx
         have hrt := jsDateParse_toISOString t hr.1 hr.2
         simp [isNullish, hrt]
         done)
      | (rename_i s
         split at h <;> cases h
         rename_i hsize
         simp [isNullish, hsize]
         done)

/-- A field check only falls through when the field is optional or its
kind is `enum` or `price`. -/
theorem valueOutcome_skip_opt : ∀ (f : FieldDef) (v : JSValue),
    valueOutcome f v = .skip →
    f.optional = true ∨ f.type = .enum ∨ f.type = .price := by
  intro f v h
  obtain ⟨name, ftype, opt, rel, opts⟩ := f
  unfold valueOutcome at h
  simp only [] at h
  cases hv : isNullish v
  case true =>
    rw [hv] at h
    cases opt
    · simp at h
    · exact Or.inl rfl
  case false =>
    rw [hv] at h
    simp only [Bool.false_and, Bool.false_eq_true, if_false] at h
    cases ftype <;> simp only [] at h <;>
      first
      | (exact Or.inr (Or.inl rfl))
      | (exact Or.inr (Or.inr rfl))
      | (cases v <;> simp only [] at h <;>
          first
          | (cases h; done)
          | (split at h <;> cases h))

theorem hasKey_append (r1 r2 : JSRecord) (k : String) :
    hasKey (r1 ++ r2) k = (hasKey r1 k || hasKey r2 k) := by
  induction r1 with
  | nil => simp [hasKey]
  | cons p rest ih =>
    obtain ⟨k0, w⟩ := p
    simp only [List.cons_append, hasKey, List.append_eq, ih, Bool.or_assoc]

theorem validateFields_of_entries (data : JSRecord) :
    ∀ (fields : List FieldDef) (acc : JSRecord) (es : List (String × JSValue)),
      (∀ f ∈ fields, hasKey acc f.name = false) →
      (fieldNames fields).Nodup →
      runEntries data fields = some es →
      validateFields data fields acc = .ok (acc ++ es) := by
  intro fields
  induction fields with
  | nil =>
    intro acc es hfresh hnodup h
    simp only [runEntries, Option.some.injEq] at h
    subst h
    simp [validateFields]
  | cons f rest ih =>
    intro acc es hfresh hnodup h
    simp only [runEntries] at h
    simp only [validateFields]
    simp only [fieldNames, List.map_cons, List.nodup_cons] at hnodup
    rcases ho : valueOutcome f (getProp data f.name) with e0 | _ | v <;> rw [ho] at h
    · cases h
    · simp only []
      exact ih acc es (fun g hg => hfresh g (by simp [hg])) hnodup.2 h
    · simp only []
      rcases hes : runEntries data rest with _ | es2 <;> rw [hes] at h
      · cases h
      · simp only [Option.map] at h
        cases h
        have hfr : hasKey acc f.name = false := hfresh f (by simp)
        rw [setProp_fresh acc f.name v hfr]
        have hih := ih (acc ++ [(f.name, v)]) es2
          (fun g hg => by
            rw [hasKey_append]
            have h1 : hasKey acc g.name = false := hfresh g (by simp [hg])
            have h2 : hasKey [(f.name, v)] g.name = false := by
              simp [hasKey]
              intro hc
              exact hnodup.1 (hc ▸ (by simp [fieldNames]; exact ⟨g, hg, rfl⟩))
            simp [h1, h2])
          hnodup.2 hes
        rw [hih]
        simp

theorem runEntries_isSome (data : JSRecord) :
    ∀ (fields : List FieldDef),
      (∀ f ∈ fields, fieldError data f = none) →
      ∃ es, runEntries data fields = some es := by
  intro fields
  induction fields with
  | nil => intro h; exact ⟨[], rfl⟩
  | cons f rest ih =>
    intro h
    have hf := h f (by simp)
    simp only [fieldError] at hf
    simp only [runEntries]
    rcases ho : valueOutcome f (getProp data f.name) with e0 | _ | v <;> rw [ho] at hf
    · cases hf
    · exact ih (fun g hg => h g (by simp [hg]))
    · obtain ⟨es, hes⟩ := ih (fun g hg => h g (by simp [hg]))
      exact ⟨(f.name, v) :: es, by rw [hes]; rfl⟩

theorem runEntries_keys_sublist (data : JSRecord) :
    ∀ (fields : List FieldDef) (es : List (String × JSValue)),
      runEntries data fields = some es →
      (es.map Prod.fst).Sublist (fieldNames fields) := by
  intro fields
  induction fields with
  | nil =>
    intro es h
    simp only [runEntries, Option.some.injEq] at h
    subst h
    simp
  | cons f rest ih =>
    intro es h
    simp only [runEntries] at h
    rcases ho : valueOutcome f (getProp data f.name) with e0 | _ | v <;> rw [ho] at h
    · cases h
    · exact (ih es h).trans (by simp [fieldNames])
    · rcases hes : runEntries data rest with _ | es2 <;> rw [hes] at h
      · cases h
      · simp only [Option.map] at h
        cases h
        simp only [List.map_cons, fieldNames, List.map_cons]
        exact (ih es2 hes).cons₂ f.name

theorem runEntries_store_mem (data : JSRecord) :
    ∀ (fields : List FieldDef) (es : List (String × JSValue)) (f : FieldDef) (v : JSValue),
      runEntries data fields = some es → f ∈ fields →
      valueOutcome f (getProp data f.name) = .store v → (f.name, v) ∈ es := by
  intro fields
  induction fields with
  | nil =>
    intro es f v h hf
    simp at hf
  | cons g rest ih =>
    intro es f v h hf hst
    simp only [runEntries] at h
    rcases List.mem_cons.mp hf with h2 | h2
    · subst h2
      rw [hst] at h
      rcases hes : runEntries data rest with _ | es2 <;> rw [hes] at h
      · cases h
      · simp only [Option.map] at h
        cases h
        simp
    · rcases ho : valueOutcome g (getProp data g.name) with e0 | _ | w <;> rw [ho] at h
      · cases h
      · exact ih es f v h h2 hst
      · rcases hes : runEntries data rest with _ | es2 <;> rw [hes] at h
        · cases h
        · simp only [Option.map] at h
          cases h
          exact List.mem_cons_of_mem _ (ih es2 f v hes h2 hst)

theorem runEntries_key_source (data : JSRecord) :
    ∀ (fields : List FieldDef) (es : List (String × JSValue)) (k : String),
      runEntries data fields = some es → hasKey es k = true →
      ∃ f ∈ fields, f.name = k ∧ ∃ v, valueOutcome f (getProp data f.name) = .store v := by
  intro fields
  induction fields with
  | nil =>
    intro es k h hk
    simp only [runEntries, Option.some.injEq] at h
    subst h
    simp [hasKey] at hk
  | cons f rest ih =>
    intro es k h hk
    simp only [runEntries] at h
    rcases ho : valueOutcome f (getProp data f.name) with e0 | _ | v <;> rw [ho] at h
    · cases h
    · obtain ⟨g, hg, hname, w, hw⟩ := ih es k h hk
      exact ⟨g, by simp [hg], hname, w, hw⟩
    · rcases hes : runEntries data rest with _ | es2 <;> rw [hes] at h
      · cases h
      · simp only [Option.map] at h
        cases h
        simp only [hasKey, Bool.or_eq_true, decide_eq_true_eq] at hk
        rcases hk with hk | hk
        · exact ⟨f, by simp, hk, v, ho⟩
        · obtain ⟨g, hg, hname, w, hw⟩ := ih es2 k hes hk
          exact ⟨g, by simp [hg], hname, w, hw⟩

theorem getProp_mem_nodup :
    ∀ (es : List (String × JSValue)) (k : String) (v : JSValue),
      (k, v) ∈ es → (es.map Prod.fst).Nodup → getProp es k = v := by
  intro es
  induction es with
  | nil =>
    intro k v h
    simp at h
  | cons p rest ih =>
    intro k v h hnodup
    obtain ⟨k0, w⟩ := p
    simp only [List.map_cons, List.nodup_cons] at hnodup
    rcases List.mem_cons.mp h with h2 | h2
    · cases h2
      simp [getProp]
    · have hne : k0 ≠ k := by
        intro hc
        subst hc
        exact hnodup.1 (by simp; exact ⟨v, h2⟩)
      simp only [getProp, if_neg hne]
      exact ih k v h2 hnodup.2

theorem name_inj_of_nodup :
    ∀ (fields : List FieldDef), (fieldNames fields).Nodup →
      ∀ f ∈ fields, ∀ g ∈ fields, f.name = g.name → f = g := by
  intro fields
  induction fields with
  | nil =>
    intro _ f hf
    simp at hf
  | cons h0 rest ih =>
    intro hnodup f hf g hg hname
    simp only [fieldNames, List.map_cons, List.nodup_cons] at hnodup
    rcases List.mem_cons.mp hf with h2 | h2 <;> rcases List.mem_cons.mp hg with h3 | h3
    · rw [h2, h3]
    · subst h2
      exfalso
      exact hnodup.1 (hname ▸ (by simp [fieldNames]; exact ⟨g, h3, rfl⟩))
    · subst h3
      exfalso
      exact hnodup.1 (hname ▸ (by simp [fieldNames]; exact ⟨f, h2, rfl⟩))
    · exact ih hnodup.2 f h2 g h3 hname

theorem entries_of_validateFields (data : JSRecord)
    (fields : List FieldDef) (out : JSRecord)
    (hnodup : (fieldNames fields).Nodup)
    (h : validateFields data fields [] = .ok out) :
    ∃ es, runEntries data fields = some es ∧ out = es := by
  have hall : ∀ f ∈ fields, fieldError data f = none :=
    (validateFields_ok_iff data fields []).mp ⟨out, h⟩
  obtain ⟨es, hes⟩ := runEntries_isSome data fields hall
  have hok := validateFields_of_entries data fields [] es
    (fun f _ => rfl) hnodup hes
  rw [h] at hok
  simp only [List.nil_append] at hok
  injection hok with h2
  exact ⟨es, hes, h2⟩

theorem runEntries_rerun (data : JSRecord) (fields : List FieldDef)
    (es : List (String × JSValue))
    (hnodup : (fieldNames fields).Nodup)
    (hep : ∀ f ∈ fields, (f.type = .enum ∨ f.type = .price) → f.optional = true)
    (hall : runEntries data fields = some es) :
    ∀ (fields2 : List FieldDef) (es2 : List (String × JSValue)),
      (∀ f ∈ fields2, f ∈ fields) →
      runEntries data fields2 = some es2 →
      runEntries es fields2 = some es2 := by
  have hkeysnd : (es.map Prod.fst).Nodup :=
    (runEntries_keys_sublist data fields es hall).nodup hnodup
  intro fields2
  induction fields2 with
  | nil =>
    intro es2 _ h
    exact h
  | cons f rest ih =>
    intro es2 hincl h
    simp only [runEntries] at h ⊢
    rcases ho : valueOutcome f (getProp data f.name) with e0 | _ | v <;> rw [ho] at h
    · cases h
    · -- skipped field: its key is absent from the full output
      have hopt : f.optional = true := by
        rcases valueOutcome_skip_opt f _ ho with h2 | h2
        · exact h2
        · exact hep f (hincl f (by simp)) h2
      have hnk : hasKey es f.name = false := by
        cases hk : hasKey es f.name
        · rfl
        · exfalso
          obtain ⟨g, hg, hname, w, hw⟩ := runEntries_key_source data fields es f.name hall hk
          have : g = f := name_inj_of_nodup fields hnodup g hg f (hincl f (by simp)) hname
          subst this
          rw [hw] at ho
          cases ho
      have hget : getProp es f.name = .undef := getProp_not_hasKey es f.name hnk
      have hskip : valueOutcome f (getProp es f.name) = .skip := by
        rw [hget]
        unfold valueOutcome
        simp [isNullish, hopt]
      rw [hskip]
      exact ih es2 (fun g hg => hincl g (by simp [hg])) h
    · -- stored field: the full output holds exactly the stored value
      have hmem : (f.name, v) ∈ es :=
        runEntries_store_mem data fields es f v hall (hincl f (by simp)) ho
      have hget : getProp es f.name = v := getProp_mem_nodup es f.name v hmem hkeysnd
      have hstore : valueOutcome f (getProp es f.name) = .store v := by
        rw [hget]
        exact valueOutcome_renorm f _ v ho
      rw [hstore]
      rcases hes2 : runEntries data rest with _ | es3 <;> rw [hes2] at h
      · cases h
      · simp only [Option.map] at h
        cases h
        rw [ih es3 (fun g hg => hincl g (by simp [hg])) hes2]
        rfl

theorem someBind {α β : Type} (a : α) (f : α → Option β) : (some a).bind f = f a := rfl

theorem noneBind {α β : Type} (f : α → Option β) : (Option.none).bind f = (none : Option β) := rfl

theorem afterChar_iff (c : Char) (l r : List Char) :
    afterChar c l = some r ↔ l = c :: r := by
  cases l with
  | nil => simp [afterChar]
  | cons x rest =>
    simp only [afterChar]
    by_cases h : x = c
    · subst h
      simp
    · simp [h]

theorem hexRun_iff : ∀ (n : Nat) (l r : List Char),
    hexRun n l = some r ↔
      ∃ g, l = g ++ r ∧ g.length = n ∧ g.all isHexDigitCI = true := by
  intro n
  induction n with
  | zero =>
    intro l r
    simp only [hexRun, Option.some.injEq]
    constructor
    · intro h
      exact ⟨[], by simp [h], rfl, rfl⟩
    · rintro ⟨g, hl, hlen, -⟩
      have hg : g = [] := List.eq_nil_of_length_eq_zero hlen
      subst hg
      simpa using hl
  | succ n ih =>
    intro l r
    cases l with
    | nil =>
      simp only [hexRun]
      constructor
      · intro h; cases h
      · rintro ⟨g, hl, hlen, -⟩
        cases g with
        | nil => simp at hlen
        | cons a g2 => simp at hl
    | cons c rest =>
      simp only [hexRun]
      by_cases hc : isHexDigitCI c = true
      · rw [if_pos hc, ih rest r]
        constructor
        · rintro ⟨g, hl, hlen, hall⟩
          exact ⟨c :: g, by simp [hl], by simp [hlen], by simp [hc, hall]⟩
        · rintro ⟨g, hl, hlen, hall⟩
          cases g with
          | nil => simp at hlen
          | cons a g2 =>
            simp only [List.cons_append, List.cons.injEq] at hl
            obtain ⟨ha, hl2⟩ := hl
            subst ha
            simp only [List.all_cons, Bool.and_eq_true] at hall
            exact ⟨g2, hl2, by simpa using hlen, hall.2⟩
      · rw [if_neg hc]
        constructor
        · intro h; cases h
        · rintro ⟨g, hl, hlen, hall⟩
          cases g with
          | nil => simp at hlen
          | cons a g2 =>
            simp only [List.cons_append, List.cons.injEq] at hl
            obtain ⟨ha, -⟩ := hl
            subst ha
            simp only [List.all_cons, Bool.and_eq_true] at hall
            exact absurd hall.1 hc

theorem uuidShape_iff (l : List Char) :
    uuidShape l = true ↔
      ∃ g1 g2 g3 g4 g5 : List Char,
        l = g1 ++ '-' :: (g2 ++ '-' :: (g3 ++ '-' :: (g4 ++ '-' :: g5))) ∧
        g1.length = 8 ∧ g2.length = 4 ∧ g3.length = 4 ∧ g4.length = 4 ∧ g5.length = 12 ∧
        g1.all isHexDigitCI = true ∧ g2.all isHexDigitCI = true ∧
        g3.all isHexDigitCI = true ∧ g4.all isHexDigitCI = true ∧
        g5.all isHexDigitCI = true := by
  unfold uuidShape
  constructor
  · intro h
    rcases h1 : hexRun 8 l with _ | r1 <;> rw [h1] at h <;>
        simp only [someBind, noneBind] at h
    · simp at h
    rcases h2 : afterChar '-' r1 with _ | r2 <;> rw [h2] at h <;>
        simp only [someBind, noneBind] at h
    · simp at h
    rcases h3 : hexRun 4 r2 with _ | r3 <;> rw [h3] at h <;>
        simp only [someBind, noneBind] at h
    · simp at h
    rcases h4 : afterChar '-' r3 with _ | r4 <;> rw [h4] at h <;>
        simp only [someBind, noneBind] at h
    · simp at h
    rcases h5 : hexRun 4 r4 with _ | r5 <;> rw [h5] at h <;>
        simp only [someBind, noneBind] at h
    · simp at h
    rcases h6 : afterChar '-' r5 with _ | r6 <;> rw [h6] at h <;>
        simp only [someBind, noneBind] at h
    · simp at h
    rcases h7 : hexRun 4 r6 with _ | r7 <;> rw [h7] at h <;>
        simp only [someBind, noneBind] at h
    · simp at h
    rcases h8 : afterChar '-' r7 with _ | r8 <;> rw [h8] at h <;>
        simp only [someBind, noneBind] at h
    · simp at h
    rcases h9 : hexRun 12 r8 with _ | r9 <;> rw [h9] at h
    · simp at h
    rw [beq_iff_eq] at h
    injection h with h0
    subst h0
    obtain ⟨g1, hl1, hlen1, hall1⟩ := (hexRun_iff 8 l r1).mp h1
    obtain ⟨g2, hl2, hlen2, hall2⟩ := (hexRun_iff 4 r2 r3).mp h3
    obtain ⟨g3, hl3, hlen3, hall3⟩ := (hexRun_iff 4 r4 r5).mp h5
    obtain ⟨g4, hl4, hlen4, hall4⟩ := (hexRun_iff 4 r6 r7).mp h7
    obtain ⟨g5, hl5, hlen5, hall5⟩ := (hexRun_iff 12 r8 []).mp h9
    rw [afterChar_iff] at h2 h4 h6 h8
    refine ⟨g1, g2, g3, g4, g5, ?_, hlen1, hlen2, hlen3, hlen4, hlen5,
      hall1, hall2, hall3, hall4, hall5⟩
    simp at hl5
    rw [hl1, h2, hl2, h4, hl3, h6, hl4, h8, hl5]
  · rintro ⟨g1, g2, g3, g4, g5, hl, hlen1, hlen2, hlen3, hlen4, hlen5,
      hall1, hall2, hall3, hall4, hall5⟩
    have e1 : hexRun 8 l = some ('-' :: (g2 ++ '-' :: (g3 ++ '-' :: (g4 ++ '-' :: g5)))) :=
      (hexRun_iff 8 l _).mpr ⟨g1, hl, hlen1, hall1⟩
    have e3 : hexRun 4 (g2 ++ '-' :: (g3 ++ '-' :: (g4 ++ '-' :: g5)))
        = some ('-' :: (g3 ++ '-' :: (g4 ++ '-' :: g5))) :=
      (hexRun_iff 4 _ _).mpr ⟨g2, rfl, hlen2, hall2⟩
    have e5 : hexRun 4 (g3 ++ '-' :: (g4 ++ '-' :: g5)) = some ('-' :: (g4 ++ '-' :: g5)) :=
      (hexRun_iff 4 _ _).mpr ⟨g3, rfl, hlen3, hall3⟩
    have e7 : hexRun 4 (g4 ++ '-' :: g5) = some ('-' :: g5) :=
      (hexRun_iff 4 _ _).mpr ⟨g4, rfl, hlen4, hall4⟩
    have e9 : hexRun 12 g5 = some [] :=
      (hexRun_iff 12 _ _).mpr ⟨g5, by simp, hlen5, hall5⟩
    rw [e1]
    simp only [someBind]
    rw [(afterChar_iff '-' _ _).mpr rfl]
    simp only [someBind]
    rw [e3]
    simp only [someBind]
    rw [(afterChar_iff '-' _ _).mpr rfl]
    simp only [someBind]
    rw [e5]
    simp only [someBind]
    rw [(afterChar_iff '-' _ _).mpr rfl]
    simp only [someBind]
    rw [e7]
    simp only [someBind]
    rw [(afterChar_iff '-' _ _).mpr rfl]
    simp only [someBind]
    rw [e9]
    rfl

theorem jsDataUrlPayload_replA (k : Nat) (hk : 1 ≤ k) :
    jsDataUrlPayload (String.mk (List.replicate k 'A')) = none := by
  cases k with
  | zero => omega
  | succ m =>
    show jsDataUrlPayload ⟨List.replicate (m + 1) 'A'⟩ = none
    unfold jsDataUrlPayload
    simp [List.replicate_succ, afterChar]

theorem jsLength_replA (k : Nat) : jsLength (List.replicate k 'A') = k := by
  unfold jsLength
  rw [List.map_replicate]
  simp

theorem mediaSize_replA (k : Nat) (hk : 1 ≤ k) :
    mediaSizeInBytes (String.mk (List.replicate k 'A')) = (3 * k + 3) / 4 := by
  unfold mediaSizeInBytes mediaBase64Data
  rw [jsDataUrlPayload_replA k hk]
  show (3 * jsLength (List.replicate k 'A') + 3) / 4 = _
  rw [jsLength_replA]

theorem mkField_name (n : String) (t : FieldType) (opt : Bool) :
    (mkField n t opt).name = n := rfl

/-- C1 (counterexample): a schema whose only field is a required `enum`
field accepts a payload that supplies the field, yet the returned record
does not contain the required field as a key, contradicting the claim
that every non-optional field of the schema is present in the result. -/
theorem c1_counterexample :
    validateContentDataForType [("status", JSValue.str "draft")]
      [mkEnumField "status" ["draft", "published"]] = .ok [] ∧
    hasKey ([] : JSRecord) "status" = false := by
  exact ⟨by decide, rfl⟩

/-- C1 (amended): if validation succeeds, every non-optional field whose
kind has a `case` in the `switch` (`number`, `text`, `date`, `boolean`,
`relation`, `media` — not `enum` or `price`, which fall through without
storing) is present as a key of the result; every key of the result is
the name of a declared field; and payload keys that name no declared
field are silently ignored: adding or overwriting such a key leaves the
result unchanged and causes no failure. -/
theorem c1_success_shape (data : JSRecord) (fields : List FieldDef) (out : JSRecord)
    (h : validateContentDataForType data fields = .ok out) :
    (∀ f ∈ fields, f.optional = false → handledKind f.type = true →
      hasKey out f.name = true) ∧
    (∀ k, hasKey out k = true → k ∈ fieldNames fields) ∧
    (∀ (k : String) (v : JSValue), (∀ f ∈ fields, f.name ≠ k) →
      validateContentDataForType (setProp data k v) fields = .ok out) := by
  refine ⟨?_, ?_, ?_⟩
  · intro f hf hopt hh
    exact validateFields_required data fields [] out h f hf hopt hh
  · intro k hk
    rcases validateFields_keys data fields [] out h k hk with h2 | h2
    · simp [hasKey] at h2
    · exact h2
  · intro k v hnk
    unfold validateContentDataForType at h ⊢
    rw [validateFields_extra_key data k v fields [] hnk]
    exact h

/-- C1 (witness): the amended claim applied to the one-field text schema
with an extraneous payload key. -/
theorem c1_success_shape_witness :
    hasKey [("title", JSValue.str "Hello")] "title" = true ∧
    validateContentDataForType
      (setProp [("title", JSValue.str "Hello")] "junk" (JSValue.num 1))
      [mkField "title" .text false] = .ok [("title", JSValue.str "Hello")] := by
  have h := c1_success_shape [("title", JSValue.str "Hello")]
    [mkField "title" .text false] [("title", JSValue.str "Hello")] (by decide)
  exact ⟨h.1 (mkField "title" .text false) (by simp) rfl rfl,
    h.2.2 "junk" (JSValue.num 1) (by decide)⟩

/-- C2 (failing input of the code bug): the member `enum` of the
`FieldType` union has no `case` in the validator's `switch`, so the
spec's scenario 3 payload `status = "archived"` against the enum schema
`["draft", "published"]` raises no failure at all: validation succeeds
and silently drops the field. In general an enum field with any
non-null value falls through unvalidated. -/
theorem c2_enum_fall_through :
    validateContentDataForType [("status", JSValue.str "archived")]
      [mkEnumField "status" ["draft", "published"]] = .ok [] ∧
    (∀ (opts : List String) (n : String) (v : JSValue), isNullish v = false →
      valueOutcome (mkEnumField n opts) v = .skip) := by
  constructor
  · decide
  · intro opts n v hv
    unfold valueOutcome mkEnumField
    simp [hv]

/-- C2 (witness): the fall-through at the scenario's own value. -/
theorem c2_enum_fall_through_witness :
    valueOutcome (mkEnumField "status" ["draft", "published"])
      (JSValue.str "archived") = .skip :=
  c2_enum_fall_through.2 ["draft", "published"] "status" (JSValue.str "archived") rfl

/-- C3 (counterexample): a required `price` field with a string value
does not raise a wrong-type error as the claim demands for a present
value of the wrong type — the `price` kind has no `case` in the
`switch`, so validation succeeds and drops the field. -/
theorem c3_counterexample :
    validateContentDataForType [("amount", JSValue.str "twelve")]
      [mkField "amount" .price false] = .ok [] := by
  decide

/-- C3 (amended): for a nullish payload value (absent, `null` or
`undefined`), a non-optional field fails with the missing-required-field
error naming the field and an optional field falls through with no error
and no assignment; for the six handled kinds, a present non-nullish
value of the wrong runtime type raises an error that names the field and
is not the missing-required-field error. The two spec scenarios follow. -/
theorem c3_missing_vs_wrong_type :
    (∀ (f : FieldDef) (data : JSRecord), isNullish (getProp data f.name) = true →
      (f.optional = false → fieldError data f = some (.requiredNull f.name)) ∧
      (f.optional = true → valueOutcome f (getProp data f.name) = .skip)) ∧
    (∀ (f : FieldDef) (v : JSValue), isNullish v = false → handledKind f.type = true →
      wrongType f.type v = true →
      ∃ e, valueOutcome f v = .err e ∧ e ≠ .requiredNull f.name ∧ e.fieldName = f.name) ∧
    validateContentDataForType [("title", JSValue.str "Hello")]
      [mkField "title" .text false, mkField "views" .number true]
      = .ok [("title", JSValue.str "Hello")] ∧
    validateContentDataForType [("title", JSValue.num 42)]
      [mkField "title" .text false, mkField "views" .number true]
      = .error (.notString "title") := by
  refine ⟨?_, ?_, by decide, by decide⟩
  · intro f data hv
    obtain ⟨name, ftype, opt, rel, opts⟩ := f
    constructor
    · intro hopt
      simp only [] at hopt
      subst hopt
      unfold fieldError valueOutcome
      simp [hv]
    · intro hopt
      simp only [] at hopt
      subst hopt
      unfold valueOutcome
      simp [hv]
  · intro f v hnv hh hw
    obtain ⟨name, ftype, opt, rel, opts⟩ := f
    unfold valueOutcome
    simp only [hnv, Bool.false_and, Bool.false_eq_true, if_false]
    cases ftype <;> cases v <;>
      first
      | (simp [wrongType] at hw; done)
      | (simp [handledKind] at hh; done)
      | (simp [isNullish] at hnv; done)
      | (exact ⟨_, rfl, by simp, rfl⟩)

/-- C3 (witness): the amended claim applied at the spec's scenarios: the
absent optional `views` field is skipped, and `title = 42` yields a
wrong-type error (not the missing-field error) naming `title`. -/
theorem c3_missing_vs_wrong_type_witness :
    valueOutcome (mkField "views" .number true)
      (getProp [("title", JSValue.str "Hello")] "views") = .skip ∧
    ∃ e, valueOutcome (mkField "title" .text false) (JSValue.num 42) = .err e ∧
      e ≠ .requiredNull "title" ∧ e.fieldName = "title" :=
  ⟨(c3_missing_vs_wrong_type.1 (mkField "views" .number true)
      [("title", JSValue.str "Hello")] (by decide)).2 rfl,
   c3_missing_vs_wrong_type.2.1 (mkField "title" .text false) (JSValue.num 42)
     (by decide) (by decide) (by decide)⟩

/-- C4 (confirmed): a call either fully validates — success is possible
exactly when every field's check passes — or reports exactly the failure
of the first field, in the schema's declared order, whose check fails;
the reported error carries that field's name, and no record accompanies
a failure (the return is `error e`, not a partial record). -/
theorem c4_first_failure (data : JSRecord) (fields : List FieldDef) :
    ((∃ out, validateContentDataForType data fields = .ok out) ↔
      ∀ f ∈ fields, fieldError data f = none) ∧
    (∀ e, validateContentDataForType data fields = .error e ↔
      ∃ pre f post, fields = pre ++ f :: post ∧
        (∀ g ∈ pre, fieldError data g = none) ∧
        fieldError data f = some e ∧ e.fieldName = f.name) := by
  unfold validateContentDataForType
  constructor
  · exact validateFields_ok_iff data fields []
  · intro e
    constructor
    · intro h
      obtain ⟨pre, f, post, h1, h2, h3⟩ := (validateFields_error_iff data fields [] e).mp h
      have hn : e.fieldName = f.name := by
        simp only [fieldError] at h3
        rcases ho : valueOutcome f (getProp data f.name) with e0 | _ | v <;> rw [ho] at h3
        · injection h3 with h4
          subst h4
          exact valueOutcome_err_name f _ e0 ho
        · cases h3
        · cases h3
      exact ⟨pre, f, post, h1, h2, h3, hn⟩
    · rintro ⟨pre, f, post, h1, h2, h3, -⟩
      exact (validateFields_error_iff data fields [] e).mpr ⟨pre, f, post, h1, h2, h3⟩

/-- C4 (witness): in a two-field schema where both fields would fail,
the reported failure is the first field's, carrying its name. -/
theorem c4_first_failure_witness :
    validateContentDataForType [("a", JSValue.num 1)]
      [mkField "a" .text false, mkField "b" .number false]
      = .error (.notString "a") :=
  ((c4_first_failure [("a", JSValue.num 1)]
      [mkField "a" .text false, mkField "b" .number false]).2 (.notString "a")).mpr
    ⟨[], mkField "a" .text false, [mkField "b" .number false],
      rfl, by simp, by decide, by decide⟩

/-- C5 (confirmed): for a media field with a string value, the measured
size is `ceil(length * 3 / 4)` of the base64 text left after stripping a
`data:<mime>;base64,` prefix when the data-URL regex matches (that is
the definition of `mediaSizeInBytes`); a computed size of at most
2097152 bytes (2 MiB) passes and stores the original string unchanged,
prefix included, while a greater size fails with the size-limit error
naming the field. -/
theorem c5_media_size (n v : String) :
    (mediaSizeInBytes v ≤ 2097152 →
      validateContentDataForType [(n, JSValue.str v)] [mkField n .media false]
        = .ok [(n, JSValue.str v)]) ∧
    (2097152 < mediaSizeInBytes v →
      validateContentDataForType [(n, JSValue.str v)] [mkField n .media false]
        = .error (.mediaTooLarge n)) := by
  have hget : getProp [(n, JSValue.str v)] n = JSValue.str v := by
    simp [getProp]
  constructor
  · intro hle
    have ho : valueOutcome (mkField n .media false) (JSValue.str v)
        = .store (JSValue.str v) := by
      unfold valueOutcome mkField
      simp [isNullish, show ¬(mediaSizeInBytes v > 2 * 1024 * 1024) by omega]
    unfold validateContentDataForType
    simp [validateFields, mkField_name, hget, ho, setProp]
  · intro hgt
    have ho : valueOutcome (mkField n .media false) (JSValue.str v)
        = .err (.mediaTooLarge n) := by
      unfold valueOutcome mkField
      simp [isNullish, show mediaSizeInBytes v > 2 * 1024 * 1024 by omega]
    unfold validateContentDataForType
    simp [validateFields, mkField_name, hget, ho]

/-- C5 (witness): a 2796202-character base64 text computes to exactly
2097152 bytes and passes; 2796204 characters compute to 2097153 bytes —
one byte over — and fail; a data-URL value is measured on the stripped
payload and stored with its prefix intact. -/
theorem c5_media_size_witness :
    mediaSizeInBytes (String.mk (List.replicate 2796202 'A')) = 2097152 ∧
    validateContentDataForType
      [("cover", JSValue.str (String.mk (List.replicate 2796202 'A')))]
      [mkField "cover" .media false]
      = .ok [("cover", JSValue.str (String.mk (List.replicate 2796202 'A')))] ∧
    mediaSizeInBytes (String.mk (List.replicate 2796204 'A')) = 2097153 ∧
    validateContentDataForType
      [("cover", JSValue.str (String.mk (List.replicate 2796204 'A')))]
      [mkField "cover" .media false] = .error (.mediaTooLarge "cover") ∧
    mediaSizeInBytes "data:image/png;base64,AAAA" = 3 ∧
    validateContentDataForType [("cover", JSValue.str "data:image/png;base64,AAAA")]
      [mkField "cover" .media false]
      = .ok [("cover", JSValue.str "data:image/png;base64,AAAA")] := by
  have h1 : mediaSizeInBytes (String.mk (List.replicate 2796202 'A')) = 2097152 := by
    rw [mediaSize_replA 2796202 (by norm_num)]
  have h2 : mediaSizeInBytes (String.mk (List.replicate 2796204 'A')) = 2097153 := by
    rw [mediaSize_replA 2796204 (by norm_num)]
  refine ⟨h1, (c5_media_size "cover" _).1 (by rw [h1]), h2,
    (c5_media_size "cover" _).2 (by rw [h2]; norm_num), by decide,
    (c5_media_size "cover" _).1 (by decide)⟩

/-- C6 (counterexample): a schema whose only field is a required `price`
field validates the payload `amount = 5` to the empty record, but
re-validating that output against the same schema fails with the
missing-required-field error — idempotence does not hold as claimed for
every schema. -/
theorem c6_counterexample :
    validateContentDataForType [("amount", JSValue.num 5)]
      [mkField "amount" .price false] = .ok [] ∧
    validateContentDataForType [] [mkField "amount" .price false]
      = .error (.requiredNull "amount") := by
  exact ⟨by decide, by decide⟩

/-- C6 (amended): for a schema with distinct field names (the data
model's invariant) in which every `enum` or `price` field — the kinds
the `switch` silently drops — is optional, validating the output of a
successful validation against the same schema succeeds and returns the
very same record; in particular each re-rendered date string re-parses
to the same instant and each stored media string passes the size check
again. -/
theorem c6_idempotent (fields : List FieldDef) (data out : JSRecord)
    (hnodup : (fieldNames fields).Nodup)
    (hep : ∀ f ∈ fields, (f.type = .enum ∨ f.type = .price) → f.optional = true)
    (h : validateContentDataForType data fields = .ok out) :
    validateContentDataForType out fields = .ok out := by
  unfold validateContentDataForType at h ⊢
  obtain ⟨es, hes, hout⟩ := entries_of_validateFields data fields out hnodup h
  have hr := runEntries_rerun data fields es hnodup hep hes fields es (fun f hf => hf) hes
  have hok := validateFields_of_entries es fields [] es (fun f _ => rfl) hnodup hr
  rw [hout]
  simpa using hok

/-- C6 (witness): idempotence at a schema with a text field and a date
field, where the first validation normalizes `2024-06-01` to the ISO
string and the second validation maps the output to itself. -/
theorem c6_idempotent_witness :
    validateContentDataForType
      [("title", JSValue.str "Hello"),
       ("publishedDate", JSValue.str "2024-06-01T00:00:00.000Z")]
      [mkField "title" .text false, mkField "publishedDate" .date false]
      = .ok [("title", JSValue.str "Hello"),
             ("publishedDate", JSValue.str "2024-06-01T00:00:00.000Z")] :=
  c6_idempotent [mkField "title" .text false, mkField "publishedDate" .date false]
    [("title", JSValue.str "Hello"), ("publishedDate", JSValue.str "2024-06-01")]
    [("title", JSValue.str "Hello"),
     ("publishedDate", JSValue.str "2024-06-01T00:00:00.000Z")]
    (by decide) (by decide) (by decide)

/-- C7 (confirmed): a date field parses a string per the ECMA date-time
string format (or copies a `Date` object's clipped time value) and
stores the `toISOString` rendering — an ISO-8601 UTC string; an
unparseable value fails with the invalid-date error; and the spec's
scenario holds: `2024-06-01` normalizes to `2024-06-01T00:00:00.000Z`. -/
theorem c7_date_normalization :
    (∀ (n s : String) (t : Int), jsDateParse s = some t →
      validateContentDataForType [(n, JSValue.str s)] [mkField n .date false]
        = .ok [(n, JSValue.str (toISOString t))]) ∧
    (∀ (n s : String), jsDateParse s = none →
      validateContentDataForType [(n, JSValue.str s)] [mkField n .date false]
        = .error (.invalidDate n)) ∧
    (∀ (n : String) (t : Int), -msLimit ≤ t → t ≤ msLimit →
      validateContentDataForType [(n, JSValue.jsdate (some t))] [mkField n .date false]
        = .ok [(n, JSValue.str (toISOString t))]) ∧
    validateContentDataForType [("publishedDate", JSValue.str "2024-06-01")]
      [mkField "publishedDate" .date false]
      = .ok [("publishedDate", JSValue.str "2024-06-01T00:00:00.000Z")] := by
  refine ⟨?_, ?_, ?_, by decide⟩
  · intro n s t hparse
    have hget : getProp [(n, JSValue.str s)] n = JSValue.str s := by
      simp [getProp]
    have ho : valueOutcome (mkField n .date false) (JSValue.str s)
        = .store (JSValue.str (toISOString t)) := by
      unfold valueOutcome mkField
      simp [isNullish, hparse]
    unfold validateContentDataForType
    simp [validateFields, mkField_name, hget, ho, setProp]
  · intro n s hparse
    have hget : getProp [(n, JSValue.str s)] n = JSValue.str s := by
      simp [getProp]
    have ho : valueOutcome (mkField n .date false) (JSValue.str s)
        = .err (.invalidDate n) := by
      unfold valueOutcome mkField
      simp [isNullish, hparse]
    unfold validateContentDataForType
    simp [validateFields, mkField_name, hget, ho]
  · intro n t h1 h2
    have hget : getProp [(n, JSValue.jsdate (some t))] n = JSValue.jsdate (some t) := by
      simp [getProp]
    have hclip : clipTime (some t) = some t := by
      simp [clipTime, h1, h2]
    have ho : valueOutcome (mkField n .date false) (JSValue.jsdate (some t))
        = .store (JSValue.str (toISOString t)) := by
      unfold valueOutcome mkField
      simp [isNullish, hclip]
    unfold validateContentDataForType
    simp [validateFields, mkField_name, hget, ho, setProp]

/-- C7 (witness): the general date normalization applied at the spec's
scenario input. -/
theorem c7_date_normalization_witness :
    validateContentDataForType [("d", JSValue.str "2024-06-01T12:30:00.000Z")]
      [mkField "d" .date false]
      = .ok [("d", JSValue.str (toISOString 1717245000000))] :=
  c7_date_normalization.1 "d" "2024-06-01T12:30:00.000Z" 1717245000000 (by decide)

/-- C8 (failing inputs of the code bug): the `FieldType` union of the
types module declares eight kinds including `enum` and `price`, but the
`validTypes` array of `validateFieldType` lists only six, so the check
rejects `enum` and `price` — the schema-authoring controllers that call
it immediately before their enum-specific handling can therefore never
accept an enum field. The kind check accepts exactly the six listed
names. -/
theorem c8_kind_check :
    validateFieldType "enum" = .error (.invalidFieldType "enum") ∧
    validateFieldType "price" = .error (.invalidFieldType "price") ∧
    (∀ s, validateFieldType s = .ok s ↔ s ∈ validFieldTypeNames) ∧
    validFieldTypeNames = ["number", "text", "date", "boolean", "relation", "media"] := by
  refine ⟨by decide, by decide, ?_, rfl⟩
  intro s
  unfold validateFieldType
  split_ifs with h
  · simp only [List.contains, List.elem_eq_mem, decide_eq_true_eq] at h
    simp [h]
  · simp only [List.contains, List.elem_eq_mem, decide_eq_true_eq] at h
    constructor
    · intro hc
      cases hc
    · intro hm
      exact absurd hm h

/-- C8 (witness): the actual-behavior characterization applied at a
member and a non-member of the six-name list. -/
theorem c8_kind_check_witness :
    validateFieldType "number" = .ok "number" ∧ "enum" ∉ validFieldTypeNames :=
  ⟨(c8_kind_check.2.2.1 "number").mpr (by decide), by decide⟩

/-- C9 (counterexample): the UUID regex carries the `i` flag, so an
all-uppercase UUID is accepted even though it is not in the canonical
lowercase-hex form the claim requires the check to demand. -/
theorem c9_counterexample :
    validateUUID "AAAAAAAA-AAAA-AAAA-AAAA-AAAAAAAAAAAA" = .ok () ∧
    specLowercaseUuid "AAAAAAAA-AAAA-AAAA-AAAA-AAAAAAAAAAAA".data = false := by
  exact ⟨by decide, by decide⟩

/-- C9 (amended): the id check accepts a string exactly when it consists
of five hyphen-separated groups of 8, 4, 4, 4 and 12 hex digits, where
hex digits of either case are allowed (the regex has the `i` flag). -/
theorem c9_uuid_shape (id : String) :
    validateUUID id = .ok () ↔
      ∃ g1 g2 g3 g4 g5 : List Char,
        id.data = g1 ++ '-' :: (g2 ++ '-' :: (g3 ++ '-' :: (g4 ++ '-' :: g5))) ∧
        g1.length = 8 ∧ g2.length = 4 ∧ g3.length = 4 ∧ g4.length = 4 ∧ g5.length = 12 ∧
        g1.all isHexDigitCI = true ∧ g2.all isHexDigitCI = true ∧
        g3.all isHexDigitCI = true ∧ g4.all isHexDigitCI = true ∧
        g5.all isHexDigitCI = true := by
  unfold validateUUID
  split_ifs with h
  · constructor
    · intro _
      exact (uuidShape_iff id.data).mp h
    · intro _
      rfl
  · constructor
    · intro hc
      cases hc
    · intro hex
      exact absurd ((uuidShape_iff id.data).mpr hex) h

/-- C9 (witness): the shape characterization applied at a well-formed
lowercase UUID. -/
theorem c9_uuid_shape_witness :
    ∃ g1 g2 g3 g4 g5 : List Char,
      "123e4567-e89b-12d3-a456-426614174000".data
        = g1 ++ '-' :: (g2 ++ '-' :: (g3 ++ '-' :: (g4 ++ '-' :: g5))) ∧
      g1.length = 8 ∧ g2.length = 4 ∧ g3.length = 4 ∧ g4.length = 4 ∧ g5.length = 12 ∧
      g1.all isHexDigitCI = true ∧ g2.all isHexDigitCI = true ∧
      g3.all isHexDigitCI = true ∧ g4.all isHexDigitCI = true ∧
      g5.all isHexDigitCI = true :=
  (c9_uuid_shape "123e4567-e89b-12d3-a456-426614174000").mp (by decide)

theorem dataEntryCheck_no_case (t : FieldType) (ht : t = .boolean ∨ t = .relation)
    (k : String) (v : JSValue) (hv : isNullish v = false) :
    dataEntryCheck t k v = .skip := by
  rcases ht with h | h <;> subst h <;> unfold dataEntryCheck <;> simp [hv]

theorem validateDataEntries_all_skip (t : FieldType) (ht : t = .boolean ∨ t = .relation) :
    ∀ (entries : List (String × JSValue)) (acc : JSRecord),
      (∀ p ∈ entries, isNullish p.2 = false) →
      validateDataEntries t entries acc = .ok acc := by
  intro entries
  induction entries with
  | nil => intro acc _; rfl
  | cons p rest ih =>
    intro acc hall
    obtain ⟨k, v⟩ := p
    have hv : isNullish v = false := hall (k, v) (by simp)
    simp only [validateDataEntries, dataEntryCheck_no_case t ht k v hv]
    exact ih acc (fun q hq => hall q (by simp [hq]))

theorem validateDataEntries_ok_acc (t : FieldType) (ht : t = .boolean ∨ t = .relation) :
    ∀ (entries : List (String × JSValue)) (acc out : JSRecord),
      validateDataEntries t entries acc = .ok out → out = acc := by
  intro entries
  induction entries with
  | nil =>
    intro acc out h
    cases h
    rfl
  | cons p rest ih =>
    intro acc out h
    obtain ⟨k, v⟩ := p
    simp only [validateDataEntries] at h
    cases hv : isNullish v
    · rw [dataEntryCheck_no_case t ht k v hv] at h
      exact ih acc out h
    · have : dataEntryCheck t k v = .err (.nullData k) := by
        unfold dataEntryCheck
        simp [hv]
      rw [this] at h
      cases h

/-- C10 (confirmed): under the fixed-kind entry point, for the kinds
`boolean` and `relation` — which have no `case` in its `switch` — every
non-nullish value of any runtime type is accepted without any check and
silently dropped, so a payload of non-nullish values validates to the
empty record, any successful result is the empty record, and a nullish
value still fails with the null-field error naming the first such key. -/
theorem c10_fixed_kind (t : FieldType) (ht : t = .boolean ∨ t = .relation)
    (data : List (String × JSValue)) :
    ((∀ p ∈ data, isNullish p.2 = false) → validateData data t = .ok []) ∧
    (∀ out, validateData data t = .ok out → out = []) ∧
    (∀ (pre : List (String × JSValue)) (k : String) (v : JSValue) post,
      data = pre ++ (k, v) :: post → (∀ p ∈ pre, isNullish p.2 = false) →
      isNullish v = true → validateData data t = .error (.nullData k)) := by
  refine ⟨?_, ?_, ?_⟩
  · intro hall
    exact validateDataEntries_all_skip t ht data [] hall
  · intro out h
    exact validateDataEntries_ok_acc t ht data [] out h
  · intro pre k v post hdata hpre hv
    subst hdata
    unfold validateData
    induction pre with
    | nil =>
      simp only [List.nil_append, validateDataEntries]
      have : dataEntryCheck t k v = .err (.nullData k) := by
        unfold dataEntryCheck
        simp [hv]
      rw [this]
    | cons p rest ih =>
      obtain ⟨k2, v2⟩ := p
      have hv2 : isNullish v2 = false := hpre (k2, v2) (by simp)
      simp only [List.cons_append, validateDataEntries,
        dataEntryCheck_no_case t ht k2 v2 hv2]
      exact ih (fun q hq => hpre q (by simp [hq]))

/-- C10 (witness): a boolean-kind bulk validation of a payload holding a
number, a string and an object returns the empty record; a null value
fails. -/
theorem c10_fixed_kind_witness :
    validateData [("a", JSValue.num 3), ("b", JSValue.str "x"), ("c", JSValue.obj)]
      .boolean = .ok [] ∧
    validateData [("a", JSValue.num 3), ("b", JSValue.nullV)] .relation
      = .error (.nullData "b") :=
  ⟨(c10_fixed_kind .boolean (Or.inl rfl)
      [("a", JSValue.num 3), ("b", JSValue.str "x"), ("c", JSValue.obj)]).1 (by decide),
   (c10_fixed_kind .relation (Or.inr rfl) [("a", JSValue.num 3), ("b", JSValue.nullV)]).2.2
     [("a", JSValue.num 3)] "b" JSValue.nullV [] rfl (by decide) rfl⟩
